import Mathlib

/-!
# Lyzn chain adapter

Oracle decoder, RPC retry layer, confirmation poller, HMAC middleware and
settlement pipeline.

A shallow embedding of these parts of the chain adapter:

* `Client.GetPythPrice` (`apps/chain-adapter/internal/solana/client.go`): the
  parsing and validation of a fetched price-feed account buffer, and the
  binary64 product it returns;
* `NewClient` and `Client.SettleContract` (same file);
* `Client.CallRPCWithRetry` and `isRetryableError` (same file);
* `Client.ConfirmTransaction` (same file);
* `Server.generateHMAC`, `Scheduler.generateHMAC` and `Server.hmacMiddleware`
  (`server/chain-adapter/internal/api/server.go`,
  `server/chain-adapter/internal/scheduler/scheduler.go`);
* `Server.callbackWebhook`, `Scheduler.callbackWebhook` and
  `Scheduler.settleContract` (same two files).

Machine integers are bit patterns in `Nat` reduced modulo `2 ^ w`, read as
signed numbers by `toSigned`; signed arithmetic that can overflow is wrapped by
`wrapInt`.  A `float64` is a value of `F64`, a significand and a binary
exponent, with IEEE 754 rounding to nearest, ties to even.
-/

namespace Lyzn

set_option maxRecDepth 100000

/-! ## Machine integers -/

/-- Signed (two's-complement) reading of the low `w` bits of `n`. -/
def toSigned (w : Nat) (n : Nat) : Int :=
  if n % 2 ^ w < 2 ^ (w - 1) then ((n % 2 ^ w : Nat) : Int)
  else ((n % 2 ^ w : Nat) : Int) - ((2 ^ w : Nat) : Int)

/-- Result of a signed `w`-bit operation whose mathematical value is `x`:
the representative of `x` modulo `2 ^ w` in `[-2 ^ (w-1), 2 ^ (w-1))`. -/
def wrapInt (w : Nat) (x : Int) : Int :=
  (x + 2 ^ (w - 1)) % 2 ^ w - 2 ^ (w - 1)

/-- Go `x << k` on a `w`-bit integer with bit pattern `x`. -/
def shl (w : Nat) (x k : Nat) : Nat := (x <<< k) % 2 ^ w

/-- Go `a | b` on bit patterns. -/
def bor (a b : Nat) : Nat := a ||| b

/-! ## Oracle price decoder (`Client.GetPythPrice`, client.go 459-527) -/

/-- One byte of the account data (Go `byte`). -/
abbrev Byte := Fin 256

/-- Ways in which the decoding part of `GetPythPrice` ends without a price.
The first four are the `fmt.Errorf` returns of the source, in source order;
`indexOutOfRange` is the Go run-time panic of a slice read past the end. -/
inductive PythError where
  /-- The text is "invalid Pyth account data: too short". -/
  | tooShort
  /-- The text is "Pyth price feed not in trading status: %d" with the status byte. -/
  | notTrading (status : Nat)
  /-- The text is "Pyth price feed is stale: %d seconds old" with `currentTime-publishTime`. -/
  | stale (age : Int)
  /-- The text is "Pyth price feed confidence too high: %d" with the confidence. -/
  | confidenceTooHigh (conf : Nat)
  /-- A read `data[i]` with `i` not below `len(data)`. -/
  | indexOutOfRange (i : Nat)
  deriving DecidableEq, Repr

/-- The integer fields read from the buffer on the success path.  The source
returns `float64(price) * math.Pow10(int(expo))`, computed from `price` and
`expo` below (`priceFloat`). -/
structure PythQuote where
  expo : Int
  price : Int
  conf : Nat
  status : Nat
  publishTime : Int
  deriving DecidableEq, Repr

/-- The slice read `data[i]`, converted to an integer type (`int32(data[i])`,
`int64(data[i])`, `uint64(data[i])` all keep the value of a byte). -/
def idx (data : List Byte) (i : Nat) : Except PythError Nat :=
  match data[i]? with
  | some b => .ok b.val
  | none => .error (.indexOutOfRange i)

/-- Source line 466:
`int32(int32(data[9]) | int32(data[10])<<8 | int32(data[11])<<16 | int32(data[12])<<24)`. -/
def readExpo (data : List Byte) : Except PythError Int := do
  let b0 ← idx data 9
  let b1 ← idx data 10
  let b2 ← idx data 11
  let b3 ← idx data 12
  return toSigned 32 (bor (bor (bor b0 (shl 32 b1 8)) (shl 32 b2 16)) (shl 32 b3 24))

/-- The eight-term expression `T(data[o]) | T(data[o+1])<<8 | ... | T(data[o+7])<<56`
on a 64-bit type, as a bit pattern (used at offsets 13, 21 and 63). -/
def readBits64 (data : List Byte) (o : Nat) : Except PythError Nat := do
  let b0 ← idx data o
  let b1 ← idx data (o + 1)
  let b2 ← idx data (o + 2)
  let b3 ← idx data (o + 3)
  let b4 ← idx data (o + 4)
  let b5 ← idx data (o + 5)
  let b6 ← idx data (o + 6)
  let b7 ← idx data (o + 7)
  return bor (bor (bor (bor (bor (bor (bor b0 (shl 64 b1 8)) (shl 64 b2 16)) (shl 64 b3 24))
    (shl 64 b4 32)) (shl 64 b5 40)) (shl 64 b6 48)) (shl 64 b7 56)

/-- Source lines 469-476: the `int64` price at offset 13. -/
def readPrice (data : List Byte) : Except PythError Int := do
  return toSigned 64 (← readBits64 data 13)

/-- Source lines 479-486: the `uint64` confidence at offset 21. -/
def readConf (data : List Byte) : Except PythError Nat := do
  return (← readBits64 data 21) % 2 ^ 64

/-- Source line 489: `status := data[29]`. -/
def readStatus (data : List Byte) : Except PythError Nat := idx data 29

/-- Source lines 495-502: the `int64` publish time at offset 63. -/
def readPublishTime (data : List Byte) : Except PythError Int := do
  return toSigned 64 (← readBits64 data 63)

/-- The constant `maxConfidence = uint64(1000000)` of the source. -/
def maxConfidence : Nat := 1000000

/-- The part of `GetPythPrice` after the account bytes are fetched (source
lines 459-527), with `currentTime` the value of `time.Now().Unix()`.
`currentTime-publishTime` is an `int64` subtraction and wraps. -/
def Client.GetPythPrice.decode (data : List Byte) (currentTime : Int) :
    Except PythError PythQuote := do
  if data.length < 200 then
    throw .tooShort
  let expo ← readExpo data
  let price ← readPrice data
  let conf ← readConf data
  let status ← readStatus data
  if status ≠ 1 then
    throw (.notTrading status)
  let publishTime ← readPublishTime data
  if wrapInt 64 (currentTime - publishTime) > 60 then
    throw (.stale (wrapInt 64 (currentTime - publishTime)))
  if conf > maxConfidence then
    throw (.confidenceTooHigh conf)
  return { expo := expo, price := price, conf := conf, status := status,
           publishTime := publishTime }

/-- A buffer of `len` zero bytes with the listed (offset, value) pairs written
into it; used to build concrete account snapshots. -/
def mkBuffer (len : Nat) (sets : List (Nat × Byte)) : List Byte :=
  sets.foldl (fun acc p => acc.set p.1 p.2) (List.replicate len 0)

/-! ### The layout table of the specification -/

/-- Little-endian value of a byte string: the first byte is the least significant. -/
def leValue : List Byte → Nat
  | [] => 0
  | b :: bs => b.val + 256 * leValue bs

/-- The `width` bytes of the buffer starting at offset `off`. -/
def fieldBytes (data : List Byte) (off width : Nat) : List Byte :=
  (data.drop off).take width

/-- Layout row `exponent | 9 | 4 | signed int`. -/
def fieldExpo (data : List Byte) : Int := toSigned 32 (leValue (fieldBytes data 9 4))

/-- Layout row `rawPrice | 13 | 8 | signed int`. -/
def fieldPrice (data : List Byte) : Int := toSigned 64 (leValue (fieldBytes data 13 8))

/-- Layout row `confidence | 21 | 8 | unsigned int`. -/
def fieldConf (data : List Byte) : Nat := leValue (fieldBytes data 21 8)

/-- Layout row `status | 29 | 1 | unsigned byte`. -/
def fieldStatus (data : List Byte) : Nat := leValue (fieldBytes data 29 1)

/-- Layout row `publishTime | 63 | 8 | signed int (Unix seconds)`. -/
def fieldPublishTime (data : List Byte) : Int := toSigned 64 (leValue (fieldBytes data 63 8))

/-- The validation list of the specification (section 4.2), in its order, first
failure wins, with `now - publishTime` the difference of the two integers:
1. length below 200 bytes: too short;
2. status not 1: not trading, carrying the status;
3. `now - publishTime > 60`: stale, carrying the age;
4. `confidence > 1_000_000`: low confidence, carrying the confidence;
otherwise success. -/
def referenceCheck (data : List Byte) (now : Int) : Except PythError Unit :=
  if data.length < 200 then .error .tooShort
  else if fieldStatus data ≠ 1 then .error (.notTrading (fieldStatus data))
  else if now - fieldPublishTime data > 60 then .error (.stale (now - fieldPublishTime data))
  else if fieldConf data > 1000000 then .error (.confidenceTooHigh (fieldConf data))
  else .ok ()

/-! ## Resilient RPC execution (`Client.CallRPCWithRetry`, client.go 93-129) -/

/-- Go `strings.Contains(s, substr)` on the characters of the two strings. -/
def strContains : List Char → List Char → Bool
  | [], sub => sub.isEmpty
  | c :: cs, sub => sub.isPrefixOf (c :: cs) || strContains cs sub

/-- Source lines 125-129.  An error is represented by its text `err.Error()`. -/
def isRetryableError (err : String) : Bool :=
  strContains err.toList "429".toList || strContains err.toList "timeout".toList ||
    strContains err.toList "rate limit".toList

/-- The two RPC clients of `Client`: `rpcPrimary` and `rpcFallback`. -/
inductive Endpoint where
  | primary
  | fallback
  deriving DecidableEq, Repr

/-- What `CallRPCWithRetry` does to the outside: a call of the operation on an
endpoint, or a `time.Sleep` of the given duration in nanoseconds. -/
inductive Event where
  | call (ep : Endpoint)
  | sleep (d : Nat)
  deriving DecidableEq, Repr

/-- The constant `time.Second`, in nanoseconds. -/
def second : Nat := 1000000000

/-- The caller-supplied operation `fn func(*rpc.Client) error`: it acts on a
state `σ` (its captured variables and the network) and returns `nil` (`none`)
or an error with the given text. -/
abbrev Operation (σ : Type) := Endpoint → σ → Option String × σ

/-- The operation state together with the events so far, oldest first. -/
structure World (σ : Type) where
  st : σ
  log : List Event

/-- The call `fn(client)`, recorded in the log. -/
def invoke {σ : Type} (fn : Operation σ) (ep : Endpoint) (w : World σ) :
    Option String × World σ :=
  ((fn ep w.st).1, { st := (fn ep w.st).2, log := w.log ++ [Event.call ep] })

/-- The call `time.Sleep(d)`, recorded in the log. -/
def sleepFor {σ : Type} (d : Nat) (w : World σ) : World σ :=
  { w with log := w.log ++ [Event.sleep d] }

/-- Source lines 98-114, the part of one round before the backoff: the primary
is tried; on an error that `isRetryableError` accepts, and with a fallback
client configured (`hasFallback`, for `c.rpcFallback != nil`), the fallback is
tried.  `none` means the round returned `nil`. -/
def tryEndpoints {σ : Type} (hasFallback : Bool) (fn : Operation σ) (w : World σ) :
    Option String × World σ :=
  match invoke fn .primary w with
  | (none, w1) => (none, w1)
  | (some err, w1) =>
    if isRetryableError err && hasFallback then invoke fn .fallback w1
    else (some err, w1)

/-- The loop `for attempt := 0; attempt < maxRetries; attempt++` of source lines
97-120, by recursion on the number of rounds still to run, so that
`attempt = maxRetries - remaining`; after the last round the error of line 122
is returned.  The backoff is a number of nanoseconds; in the three rounds of
`CallRPCWithRetry` it stays below 2 ^ 63, the range of `time.Duration`. -/
def retryRounds {σ : Type} (hasFallback : Bool) (fn : Operation σ) (maxRetries : Nat) :
    Nat → Nat → World σ → Option String × World σ
  | 0, _, w => (some ("RPC call failed after " ++ toString maxRetries ++ " attempts"), w)
  | remaining + 1, backoff, w =>
    match tryEndpoints hasFallback fn w with
    | (none, w1) => (none, w1)
    | (some _, w1) =>
      if maxRetries - (remaining + 1) < maxRetries - 1 then
        retryRounds hasFallback fn maxRetries remaining (backoff * 2) (sleepFor backoff w1)
      else
        retryRounds hasFallback fn maxRetries remaining backoff w1

/-- Source lines 93-123, with `maxRetries := 3` and `backoff := time.Second`.
The result is the returned error (`none` for `nil`), the final state of the
operation and the events in order.  The `ctx` argument is not used by the
source. -/
def Client.CallRPCWithRetry {σ : Type} (hasFallback : Bool) (fn : Operation σ) (s : σ) :
    Option String × σ × List Event :=
  let r := retryRounds hasFallback fn 3 3 second { st := s, log := [] }
  (r.1, r.2.st, r.2.log)

/-- The events of one round that starts with an empty log. -/
def roundEvents {σ : Type} (hasFallback : Bool) (fn : Operation σ) (s : σ) : List Event :=
  (tryEndpoints hasFallback fn { st := s, log := [] }).2.log

/-- Whether an event is a call of the operation. -/
def Event.isCall : Event → Bool
  | .call _ => true
  | .sleep _ => false

/-- The operation states in which the rounds of a run of the retry loop start:
the state the run starts in and, as long as a round fails and rounds remain,
the state that round leaves. -/
def roundStarts {σ : Type} (hasFallback : Bool) (fn : Operation σ) : Nat → σ → List σ
  | 0, _ => []
  | remaining + 1, s =>
    match tryEndpoints hasFallback fn { st := s, log := [] } with
    | (none, _) => [s]
    | (some _, w1) => s :: roundStarts hasFallback fn remaining w1.st

/-- An operation for concrete runs: its state counts the invocations; the
first `k` of them fail with the error text `err`, the later ones succeed. -/
def failFirst (k : Nat) (err : String) : Operation Nat :=
  fun _ n => (if n < k then some err else none, n + 1)

/-- An operation for concrete runs that fails with `err` on every invocation. -/
def failAlways (err : String) : Operation Nat :=
  fun _ n => (some err, n + 1)

/-- An operation for concrete runs whose primary endpoint always times out and
whose fallback endpoint always answers. -/
def primaryDown : Operation Nat :=
  fun ep n => (if ep = Endpoint.primary then some "i/o timeout" else none, n + 1)

/-! ## Webhook channel (`generateHMAC`, `hmacMiddleware`, server.go 269-335) -/

/-- HMAC-SHA256 of the Go standard library (`hmac.New(sha256.New, key)`,
`mac.Write(msg)`, `mac.Sum(nil)`): any function from a key and a message to a
32-byte digest. -/
abbrev MacFn := String → String → { d : List Byte // d.length = 32 }

/-- The table `hextable = "0123456789abcdef"` of `encoding/hex`. -/
def hexDigit (n : Nat) : Char := "0123456789abcdef".toList.getD n '0'

/-- Go `hex.EncodeToString`: two digits per byte, high nibble first. -/
def hexEncode (bs : List Byte) : String :=
  String.mk (bs.flatMap fun b => [hexDigit (b.val / 16), hexDigit (b.val % 16)])

/-- Source server.go 269-273, with `secret` for `s.config.HMACSecret`. -/
def Server.generateHMAC (mac : MacFn) (secret payload timestamp : String) : String :=
  hexEncode (mac secret (timestamp ++ "." ++ payload)).val

/-- Source scheduler.go 227-231, with `secret` for `s.config.HMACSecret`. -/
def Scheduler.generateHMAC (mac : MacFn) (secret payload timestamp : String) : String :=
  hexEncode (mac secret (timestamp ++ "." ++ payload)).val

/-- Value of a decimal digit, `none` for any other character. -/
def digitVal (c : Char) : Option Nat :=
  if '0'.toNat ≤ c.toNat ∧ c.toNat ≤ '9'.toNat then some (c.toNat - '0'.toNat) else none

/-- Go `strconv.ParseUint(s, 10, 64)` on the characters of `s`: at least one
character, decimal digits only, value below `2 ^ 64`; `none` for an error. -/
def parseUint64 (s : List Char) : Option Nat :=
  if s = [] then none
  else s.foldlM (fun n c =>
    match digitVal c with
    | none => none
    | some d => if n * 10 + d < 2 ^ 64 then some (n * 10 + d) else none) 0

/-- Go `strconv.ParseInt(s, 10, 64)`: an optional sign `+` or `-`, then
`ParseUint`, then the range check against `2 ^ 63`; `none` for an error. -/
def parseInt64 (s : String) : Option Int :=
  match s.toList with
  | [] => none
  | c :: cs =>
    let neg : Bool := c = '-'
    let digits := if c = '+' ∨ c = '-' then cs else c :: cs
    match parseUint64 digits with
    | none => none
    | some un =>
      if neg = false ∧ un ≥ 2 ^ 63 then none
      else if neg = true ∧ un > 2 ^ 63 then none
      else some (if neg then -(un : Int) else (un : Int))

/-- What the middleware reads of an `*http.Request`: the URL path, the two
headers (`Header.Get` gives the empty string for an absent header) and the
body stream, `none` when `io.ReadAll` returns an error. -/
structure Request where
  path : String
  xTimestamp : String
  xSignature : String
  body : Option String
  deriving DecidableEq, Repr

/-- What `respondJSON` writes: the status code and the JSON object, as its
list of key and value pairs. -/
structure Response where
  status : Nat
  json : List (String × String)
  deriving DecidableEq, Repr

/-- Either `next.ServeHTTP(w, r)` with the request handed on, or a response
written by the middleware itself. -/
inductive Handled where
  | next (r : Request)
  | respond (resp : Response)
  deriving DecidableEq, Repr

/-- The constant `http.StatusUnauthorized`. -/
def StatusUnauthorized : Nat := 401

/-- The constant `http.StatusBadRequest`. -/
def StatusBadRequest : Nat := 400

/-- Source server.go 327-331 (the Content-Type header is always the same). -/
def Server.respondJSON (status : Nat) (data : List (String × String)) : Response :=
  { status := status, json := data }

/-- Source server.go 333-335. -/
def Server.respondError (status : Nat) (message : String) : Response :=
  Server.respondJSON status [("error", message)]

/-- Source server.go 275-325, with `now` the value of `time.Now().UnixMilli()`.
`now - ts` is an `int64` subtraction and wraps; `hmac.Equal` is equality of
the two byte strings. -/
def Server.hmacMiddleware (mac : MacFn) (secret : String) (now : Int) (r : Request) : Handled :=
  if r.path = "/v1/health" then .next r
  else
    let timestamp := r.xTimestamp
    let signature := r.xSignature
    if timestamp = "" ∨ signature = "" then
      .respond (Server.respondError StatusUnauthorized "Missing HMAC headers")
    else
      match parseInt64 timestamp with
      | none => .respond (Server.respondError StatusBadRequest "Invalid timestamp")
      | some ts =>
        if wrapInt 64 (now - ts) > 5 * 60 * 1000 then
          .respond (Server.respondError StatusUnauthorized "Request expired")
        else
          match r.body with
          | none => .respond (Server.respondError StatusBadRequest "Failed to read body")
          | some body =>
            let expectedSignature := hexEncode (mac secret (timestamp ++ "." ++ body)).val
            if ¬ (signature = expectedSignature) then
              .respond (Server.respondError StatusUnauthorized "Invalid signature")
            else .next { r with body := some body }

deriving instance DecidableEq for Except

/-- A stand-in MAC for concrete evaluations: 32 zero bytes for every input. -/
def zeroMac : MacFn := fun _ _ => ⟨List.replicate 32 0, by decide⟩

/-! ## Acceptance condition of the inbound verification (specification 4.5) -/

/-- The condition under which the inbound verification hands a request to the
business handler, in the words of the specification: the path is the health
path, or both headers are present, the timestamp parses as an integer `ts`,
`now - ts` (the difference of the two integers) is at most 300000 ms, the body
can be read, and the signature is the hex HMAC of timestamp + "." + body. -/
def NextExpected (mac : MacFn) (secret : String) (now : Int) (r : Request) : Prop :=
  r.path = "/v1/health" ∨
    (r.xTimestamp ≠ "" ∧ r.xSignature ≠ "" ∧
      ∃ ts body, parseInt64 r.xTimestamp = some ts ∧ now - ts ≤ 300000 ∧
        r.body = some body ∧
        r.xSignature = hexEncode (mac secret (r.xTimestamp ++ "." ++ body)).val)
/-! ## Confirmation poller (`Client.ConfirmTransaction`, client.go 131-165) -/

/-- The type `rpc.ConfirmationStatusType` with its three levels. -/
inductive ConfirmationStatus where
  | processed
  | confirmed
  | finalized
  deriving DecidableEq, Repr

/-- One entry of `status.Value`: the chain error `Err` (`none` for `nil`, else
its `%v` text) and the pointer `ConfirmationStatus` (`none` for `nil`). -/
structure SignatureStatus where
  err : Option String
  confirmationStatus : Option ConfirmationStatus
  deriving DecidableEq, Repr

/-- The slice `Value` of a `*rpc.GetSignatureStatusesResult`; an entry is
`none` for a `nil` pointer. -/
abbrev StatusesResult := List (Option SignatureStatus)

/-- A `context.Context` as the caller hands it over: whether it has been
cancelled.  A cancelled context stays cancelled. -/
structure Context where
  cancelled : Bool
  deriving DecidableEq, Repr

/-- The call `client.GetSignatureStatuses(ctx, false, sig)` of the RPC
library: given the context and the endpoint it acts on the state `σ` and
returns the statuses or an error text. -/
abbrev StatusQuery (σ : Type) := Context → Endpoint → σ → Except String StatusesResult × σ

/-- The closure of source lines 138-142: it calls the status query with the
caller's context, stores the result in the captured variable `status` (the
second component of the state, `none` for `nil`) and returns the error. -/
def statusClosure {σ : Type} (ctx : Context) (query : StatusQuery σ) :
    Operation (σ × Option StatusesResult) :=
  fun ep s =>
    match query ctx ep s.1 with
    | (.ok v, s1) => (none, (s1, some v))
    | (.error e, s1) => (some e, (s1, none))

/-- The function `CallRPCWithRetry` run in a world that already has a log. -/
def callRPCWithRetryIn {σ : Type} (hasFallback : Bool) (fn : Operation σ) (w : World σ) :
    Option String × World σ :=
  retryRounds hasFallback fn 3 3 second w

/-- Source lines 137-142: the variable `status` is declared `nil` and the
closure is run through `CallRPCWithRetry`.  The result is the returned error,
the value of `status` afterwards and the world. -/
def pollOnce {σ : Type} (hasFallback : Bool) (ctx : Context) (query : StatusQuery σ)
    (w : World σ) : Option String × Option StatusesResult × World σ :=
  let r := callRPCWithRetryIn hasFallback (statusClosure ctx query)
    { st := (w.st, none), log := w.log }
  (r.1, r.2.st.2, { st := r.2.st.1, log := r.2.log })

/-- The text of the Go run-time panic for reading `status.Value` through a
`nil` pointer. -/
def nilDereference : String := "panic: invalid memory address or nil pointer dereference"

/-- The loop `for attempt := 0; attempt < maxAttempts; attempt++` of source
lines 136-162, by recursion on the number of attempts still to run; after the
last attempt the error of line 164 is returned. -/
def confirmRounds {σ : Type} (hasFallback : Bool) (ctx : Context) (query : StatusQuery σ)
    (maxAttempts interval : Nat) : Nat → World σ → Option String × World σ
  | 0, w =>
    (some ("transaction not confirmed after " ++ toString maxAttempts ++ " attempts"), w)
  | remaining + 1, w =>
    match pollOnce hasFallback ctx query w with
    | (some _, _, w1) =>
      confirmRounds hasFallback ctx query maxAttempts interval remaining (sleepFor interval w1)
    | (none, none, w1) => (some nilDereference, w1)
    | (none, some status, w1) =>
      match status with
      | some entry :: _ =>
        match entry.err with
        | some e => (some ("transaction failed: " ++ e), w1)
        | none =>
          if entry.confirmationStatus = some ConfirmationStatus.finalized then (none, w1)
          else
            confirmRounds hasFallback ctx query maxAttempts interval remaining
              (sleepFor interval w1)
      | _ =>
        confirmRounds hasFallback ctx query maxAttempts interval remaining
          (sleepFor interval w1)

/-- Source lines 132-165, with `maxAttempts := 30` and
`interval := 2 * time.Second`.  The result is the returned error (`none` for
`nil`), the final state and the events in order. -/
def Client.ConfirmTransaction {σ : Type} (hasFallback : Bool) (ctx : Context)
    (query : StatusQuery σ) (s : σ) : Option String × σ × List Event :=
  let r := confirmRounds hasFallback ctx query 30 (2 * second) 30 { st := s, log := [] }
  (r.1, r.2.st, r.2.log)

/-- A pending status in the words of the specification: no status entry at
all, or an entry with no chain error whose confirmation level is not
Finalized. -/
def isPending (v : StatusesResult) : Bool :=
  match v.head? with
  | some (some entry) =>
    entry.err.isNone && !(entry.confirmationStatus == some ConfirmationStatus.finalized)
  | _ => true

/-- The sum of the sleep durations in a log. -/
def sleepTotal : List Event → Nat
  | [] => 0
  | Event.sleep d :: rest => d + sleepTotal rest
  | Event.call _ :: rest => sleepTotal rest

/-- A status query for concrete runs: its state counts the calls; under a
cancelled context it fails with the error of the context, otherwise it
reports that there is no status yet. -/
def cancelAwareQuery : StatusQuery Nat :=
  fun ctx _ n => (if ctx.cancelled then .error "context canceled" else .ok [], n + 1)

/-! ### The transition rules of the specification (4.3) -/

/-- The three results of the poller in the specification. -/
inductive ConfirmResult where
  | confirmed
  | failed (reason : String)
  | timedOut
  deriving DecidableEq, Repr

/-- The Go error value of each result: `nil` for Confirmed, the error of line
152 for Failed, the error of line 164 for TimedOut. -/
def ConfirmResult.toError : ConfirmResult → Option String
  | .confirmed => none
  | .failed reason => some ("transaction failed: " ++ reason)
  | .timedOut => some "transaction not confirmed after 30 attempts"

/-- What one attempt started in state `s` learns, and the state it leaves: the
statuses when its query through the retry layer succeeds, the error when it
does not. -/
def attemptOutcome {σ : Type} (hasFallback : Bool) (ctx : Context) (query : StatusQuery σ)
    (s : σ) : Except String StatusesResult × σ :=
  match pollOnce hasFallback ctx query { st := s, log := [] } with
  | (some e, _, w) => (.error e, w.st)
  | (none, some v, w) => (.ok v, w.st)
  | (none, none, w) => (.error nilDereference, w.st)

/-- The transition rule for one attempt: the terminal result it decides, or
`none` when polling continues.  A query error continues; a present status
with a chain error is Failed; a present status at level Finalized with no
error is Confirmed; anything else continues. -/
def terminalOf : Except String StatusesResult → Option ConfirmResult
  | .error _ => none
  | .ok v =>
    match v.head? with
    | some (some entry) =>
      match entry.err with
      | some reason => some (.failed reason)
      | none =>
        if entry.confirmationStatus = some ConfirmationStatus.finalized then some .confirmed
        else none
    | _ => none

/-- What `n` consecutive attempts learn, the first one started in state `s`. -/
def attemptOutcomes {σ : Type} (hasFallback : Bool) (ctx : Context) (query : StatusQuery σ) :
    Nat → σ → List (Except String StatusesResult)
  | 0, _ => []
  | n + 1, s =>
    (attemptOutcome hasFallback ctx query s).1 ::
      attemptOutcomes hasFallback ctx query n (attemptOutcome hasFallback ctx query s).2

/-- The result the specification assigns to a sequence of attempts: that of
the first terminal attempt, TimedOut when there is none. -/
def confirmSpec (outcomes : List (Except String StatusesResult)) : ConfirmResult :=
  match outcomes.findSome? terminalOf with
  | some r => r
  | none => .timedOut

/-- A status query for concrete runs whose node refuses every connection; its
state counts the calls. -/
def refusingQuery : StatusQuery Nat :=
  fun _ _ n => (.error "connection refused", n + 1)

/-! ## Outbound webhook (`callbackWebhook`, server.go 234-244, scheduler.go 191-202) -/

/-- A value of the payload map `map[string]interface{}`: a string, or the
`meta` argument. -/
inductive PayloadValue (μ : Type) where
  | str (s : String)
  | metaMap (m : μ)
  deriving DecidableEq, Repr

/-- The payload map, as its key and value pairs in source order. -/
abbrev Payload (μ : Type) := List (String × PayloadValue μ)

/-- The keys of a payload. -/
def Payload.keys {μ : Type} (p : Payload μ) : List String := p.map Prod.fst

/-- Source server.go 235-240: the payload built by `Server.callbackWebhook`. -/
def Server.callbackWebhook.payload {μ : Type} (contractID sig status : String) (m : μ) :
    Payload μ :=
  [("contractId", .str contractID), ("sig", .str sig), ("status", .str status),
   ("meta", .metaMap m)]

/-- Source scheduler.go 192-198: the payload built by `Scheduler.callbackWebhook`. -/
def Scheduler.callbackWebhook.payload {μ : Type} (contractID sig status : String) (m : μ) :
    Payload μ :=
  [("contractId", .str contractID), ("sig", .str sig), ("kind", .str "SETTLE"),
   ("status", .str status), ("meta", .metaMap m)]

/-- The request sent by `callbackWebhook`: the path appended to the web API
URL, the payload, its marshalled bytes and the two HMAC headers. -/
structure WebhookRequest (μ : Type) where
  path : String
  payload : Payload μ
  body : String
  xTimestamp : String
  xSignature : String

/-- Source server.go 234-254, up to the sending of the request, with `marshal`
for `json.Marshal` and `now` for `time.Now().UnixMilli()`. -/
def Server.callbackWebhook {μ : Type} (mac : MacFn) (secret : String)
    (marshal : Payload μ → String) (now : Int) (contractID sig status : String) (m : μ) :
    WebhookRequest μ :=
  let payload := Server.callbackWebhook.payload contractID sig status m
  let payloadBytes := marshal payload
  let timestamp := toString now
  let signature := Server.generateHMAC mac secret payloadBytes timestamp
  { path := "/api/webhooks/tx", payload := payload, body := payloadBytes,
    xTimestamp := timestamp, xSignature := signature }

/-- Source scheduler.go 191-212, up to the sending of the request, with
`marshal` for `json.Marshal` and `now` for `time.Now().UnixMilli()`. -/
def Scheduler.callbackWebhook {μ : Type} (mac : MacFn) (secret : String)
    (marshal : Payload μ → String) (now : Int) (contractID sig status : String) (m : μ) :
    WebhookRequest μ :=
  let payload := Scheduler.callbackWebhook.payload contractID sig status m
  let payloadBytes := marshal payload
  let timestamp := toString now
  let signature := Scheduler.generateHMAC mac secret payloadBytes timestamp
  { path := "/api/webhooks/tx", payload := payload, body := payloadBytes,
    xTimestamp := timestamp, xSignature := signature }

/-! ## Settlement of a due contract (`Scheduler.settleContract`, scheduler.go 127-175) -/

/-- The type `ContractDue` of scheduler.go 119-125. -/
structure ContractDue where
  id : String
  contractPDA : String
  escrowPDA : String
  oracleFeed : String
  underlying : String
  deriving DecidableEq, Repr

/-- The type `solana.SettleContractParams`, over a type `κ` of public keys and
a type `π` of prices. -/
structure SettleContractParams (κ π : Type) where
  contractID : String
  contractPDA : κ
  escrowPDA : κ
  oracleFeed : κ
  settlementPrice : π
  deriving DecidableEq, Repr

/-- The type `solana.SettleContractResponse`, with the text of `TxSig` and a
type `ρ` of payout maps. -/
structure SettleContractResponse (π ρ : Type) where
  price : π
  payout : ρ
  txSig : String
  deriving DecidableEq, Repr

/-- The collaborators `settleContract` calls: `solana.PublicKeyFromBase58`,
`Client.GetPythPrice` and `Client.SettleContract`, each with its result for
every argument. -/
structure SettleDeps (κ π ρ : Type) where
  publicKeyFromBase58 : String → Option κ
  getPythPrice : κ → Except String π
  settleContract : SettleContractParams κ π → Except String (SettleContractResponse π ρ)

/-- A call that the settlement pipeline of the specification makes: the price
fetch, the settlement, the confirmation poll, the webhook.  For the webhook
`detached` tells whether it is started with `go` rather than called. -/
inductive Step (κ π ρ : Type) where
  | getPythPrice (feed : κ)
  | settleContract (params : SettleContractParams κ π)
  | confirmTransaction (sig : String)
  | callbackWebhook (detached : Bool) (payload : Payload (π × ρ))
  deriving DecidableEq, Repr

/-- Source scheduler.go 127-175: the calls `settleContract` makes for one due
contract, in order.  Every `return` after an error ends the list; the webhook
is called directly (line 171 has no `go`), with the status "CONFIRMED" and the
price and payout of the settlement as `meta`. -/
def Scheduler.settleContract {κ π ρ : Type} (deps : SettleDeps κ π ρ)
    (contract : ContractDue) : List (Step κ π ρ) :=
  match deps.publicKeyFromBase58 contract.oracleFeed with
  | none => []
  | some oracleFeed =>
    match deps.getPythPrice oracleFeed with
    | .error _ => [.getPythPrice oracleFeed]
    | .ok price =>
      match deps.publicKeyFromBase58 contract.contractPDA with
      | none => [.getPythPrice oracleFeed]
      | some contractPDA =>
        match deps.publicKeyFromBase58 contract.escrowPDA with
        | none => [.getPythPrice oracleFeed]
        | some escrowPDA =>
          let params : SettleContractParams κ π :=
            { contractID := contract.id, contractPDA := contractPDA, escrowPDA := escrowPDA,
              oracleFeed := oracleFeed, settlementPrice := price }
          match deps.settleContract params with
          | .error _ => [.getPythPrice oracleFeed, .settleContract params]
          | .ok result =>
            [.getPythPrice oracleFeed, .settleContract params,
             .callbackWebhook false
               (Scheduler.callbackWebhook.payload contract.id result.txSig "CONFIRMED"
                 (result.price, result.payout))]

/-- The account snapshot of the decode example of the specification: exponent
-8 (bytes 9..12 = f8 ff ff ff), raw price 4500000000000 (bytes 13..20 =
00 c8 e6 bc 17 04 00 00), confidence 500000 (bytes 21..23 = 20 a1 07), status
1 and publish time 1700000000 (bytes 63..66 = 00 f1 53 65). -/
def exampleBuffer : List Byte :=
  mkBuffer 200 [(9, 0xf8), (10, 0xff), (11, 0xff), (12, 0xff),
    (14, 0xc8), (15, 0xe6), (16, 0xbc), (17, 0x17), (18, 0x04),
    (21, 0x20), (22, 0xa1), (23, 0x07), (29, 1),
    (64, 0xf1), (65, 0x53), (66, 0x65)]

/-! ## Binary64 arithmetic (`float64(price) * math.Pow10(int(expo))`, client.go 517) -/

/-- A `float64` value: the finite number `m * 2 ^ e`, an infinity or NaN.  A
finite value other than zero is kept with `2 ^ 52 ≤ |m| < 2 ^ 53` (normal), or
with `e = -1074` (subnormal); zero is `finite 0 0`, its sign is not kept. -/
inductive F64 where
  | finite (m : Int) (e : Int)
  | posInf
  | negInf
  | nan
  deriving DecidableEq, Repr

/-- The number a `float64` value stands for, `none` for an infinity or NaN. -/
def F64.toRat : F64 → Option ℚ
  | .finite m e => some ((m : ℚ) * (2 : ℚ) ^ e)
  | _ => none

/-- The opposite value. -/
def F64.neg : F64 → F64
  | .finite m e => .finite (-m) e
  | .posInf => .negInf
  | .negInf => .posInf
  | .nan => .nan

/-- Number of binary digits of `n`, counted by halving; `fuel` bounds the
number of halvings and `n` itself is always enough. -/
def bitLengthAux : Nat → Nat → Nat → Nat
  | 0, _, acc => acc
  | fuel + 1, n, acc => if n = 0 then acc else bitLengthAux fuel (n / 2) (acc + 1)

/-- Number of binary digits of `n`. -/
def bitLength (n : Nat) : Nat := bitLengthAux n n 0

/-- Whether `n / d ≥ 2 ^ x`. -/
def geTwoPow (n d : Nat) (x : Int) : Bool :=
  if 0 ≤ x then decide (d <<< x.toNat ≤ n) else decide (d ≤ n <<< (-x).toNat)

/-- Rounding of the positive number `n / d` to the nearest `float64`, ties to
the even significand (IEEE 754 binary64: 53-bit significand, exponents from
-1022 to 1023, subnormals in units of `2 ^ -1074`, overflow to +Inf). -/
def roundPos (n d : Nat) : F64 :=
  let k : Int := bitLength n
  let l : Int := bitLength d
  let e : Int := if geTwoPow n d (k - l) then k - l else k - l - 1
  let p : Int := max (e - 52) (-1074)
  let num : Nat := if 0 ≤ p then n else n <<< (-p).toNat
  let den : Nat := if 0 ≤ p then d <<< p.toNat else d
  let q := num / den
  let r := num % den
  let m := if 2 * r < den then q else if den < 2 * r then q + 1
    else if q % 2 = 0 then q else q + 1
  let m1 := if m = 9007199254740992 then 4503599627370496 else m
  let p1 := if m = 9007199254740992 then p + 1 else p
  if m1 = 0 then .finite 0 0
  else if 971 < p1 then .posInf
  else .finite m1 p1

/-- Rounding of the rational `num / den` (`den` positive) to the nearest
`float64`. -/
def roundRat (num : Int) (den : Nat) : F64 :=
  if num = 0 then .finite 0 0
  else if 0 < num then roundPos num.toNat den
  else (roundPos (-num).toNat den).neg

/-- The conversion `float64(n)` of an integer. -/
def F64.ofInt (n : Int) : F64 := roundRat n 1

/-- The `float64` product `a * b`. -/
def F64.mul : F64 → F64 → F64
  | .nan, _ => .nan
  | _, .nan => .nan
  | .finite m1 e1, .finite m2 e2 =>
    if 0 ≤ e1 + e2 then roundRat (m1 * m2 * (1 <<< (e1 + e2).toNat : Nat)) 1
    else roundRat (m1 * m2) (1 <<< (-(e1 + e2)).toNat)
  | .finite m _, .posInf => if m = 0 then .nan else if 0 < m then .posInf else .negInf
  | .finite m _, .negInf => if m = 0 then .nan else if 0 < m then .negInf else .posInf
  | .posInf, .finite m _ => if m = 0 then .nan else if 0 < m then .posInf else .negInf
  | .negInf, .finite m _ => if m = 0 then .nan else if 0 < m then .negInf else .posInf
  | .posInf, .posInf => .posInf
  | .posInf, .negInf => .negInf
  | .negInf, .posInf => .negInf
  | .negInf, .negInf => .posInf

/-- The `float64` quotient `a / b`. -/
def F64.div : F64 → F64 → F64
  | .nan, _ => .nan
  | _, .nan => .nan
  | .finite m1 e1, .finite m2 e2 =>
    if m2 = 0 then (if m1 = 0 then .nan else if 0 < m1 then .posInf else .negInf)
    else if 0 ≤ e1 - e2 then
      roundRat (m1 * Int.sign m2 * (1 <<< (e1 - e2).toNat : Nat)) m2.natAbs
    else roundRat (m1 * Int.sign m2) (m2.natAbs <<< (-(e1 - e2)).toNat)
  | .finite _ _, .posInf => .finite 0 0
  | .finite _ _, .negInf => .finite 0 0
  | .posInf, .finite m _ => if 0 ≤ m then .posInf else .negInf
  | .negInf, .finite m _ => if 0 ≤ m then .negInf else .posInf
  | .posInf, .posInf => .nan
  | .posInf, .negInf => .nan
  | .negInf, .posInf => .nan
  | .negInf, .negInf => .nan

/-- The table `pow10tab` of Go's `math` package: the constants `1e00` to
`1e31`, each the `float64` nearest to the power of ten. -/
def pow10tab (i : Nat) : F64 := roundRat ((10 : Int) ^ i) 1

/-- The table `pow10postab32`: the constants `1e00`, `1e32`, ..., `1e288`. -/
def pow10postab32 (j : Nat) : F64 := roundRat (((10 : Int) ^ 32) ^ j) 1

/-- The table `pow10negtab32`: the constants `1e-00`, `1e-32`, ..., `1e-320`. -/
def pow10negtab32 (j : Nat) : F64 := roundRat 1 (((10 : Nat) ^ 32) ^ j)

/-- Go `math.Pow10(n)`: for `0 ≤ n ≤ 308` the product of two table entries,
for `-323 ≤ n ≤ 0` the quotient of two table entries, `+Inf` above 308 and 0
below -323. -/
def Pow10 (n : Int) : F64 :=
  if 0 ≤ n ∧ n ≤ 308 then (pow10postab32 (n.toNat / 32)).mul (pow10tab (n.toNat % 32))
  else if -323 ≤ n ∧ n ≤ 0 then
    (pow10negtab32 ((-n).toNat / 32)).div (pow10tab ((-n).toNat % 32))
  else if 0 < n then .posInf
  else .finite 0 0

/-- Source line 517: `priceFloat := float64(price) * math.Pow10(int(expo))`. -/
def priceFloat (q : PythQuote) : F64 := (F64.ofInt q.price).mul (Pow10 q.expo)

/-- The value `GetPythPrice` returns from the fetched bytes: the error of a
failed check, or the price of line 517 with a `nil` error (line 527). -/
def Client.GetPythPrice.price (data : List Byte) (currentTime : Int) : Except PythError F64 :=
  match Client.GetPythPrice.decode data currentTime with
  | .error e => .error e
  | .ok q => .ok (priceFloat q)

/-- An account snapshot with exponent 309 (bytes 9..10 = 35 01), raw price 0,
confidence 0, status 1 and publish time 1700000000. -/
def zeroPriceBuffer : List Byte :=
  mkBuffer 200 [(9, 0x35), (10, 0x01), (29, 1), (64, 0xf1), (65, 0x53), (66, 0x65)]

/-- An account snapshot with exponent 2147483647 (bytes 9..12 = ff ff ff 7f),
raw price -9223372036854775808 (byte 20 = 80), confidence 0, status 1 and
publish time 1700000000. -/
def hugeExponentBuffer : List Byte :=
  mkBuffer 200 [(9, 0xff), (10, 0xff), (11, 0xff), (12, 0x7f), (20, 0x80), (29, 1),
    (64, 0xf1), (65, 0x53), (66, 0x65)]
/-! ## The client as constructed (`NewClient`, client.go 27-69) and
`Client.SettleContract` (client.go 378-441) -/

/-- The fields of `Client` other than the logger and the feed map: whether a
fallback RPC client is set, the two keys, the mode and the signer (`none` for
a `nil` pointer). -/
structure Client (κ : Type) where
  hasFallback : Bool
  programID : κ
  usdcMint : κ
  nonCustodial : Bool
  signer : Option String
  deriving DecidableEq, Repr

/-- The text of each error of the decoding part of `GetPythPrice`. -/
def PythError.text : PythError → String
  | .tooShort => "invalid Pyth account data: too short"
  | .notTrading status => "Pyth price feed not in trading status: " ++ toString status
  | .stale age => "Pyth price feed is stale: " ++ toString age ++ " seconds old"
  | .confidenceTooHigh conf => "Pyth price feed confidence too high: " ++ toString conf
  | .indexOutOfRange i => "panic: runtime error: index out of range [" ++ toString i ++ "]"

/-- Source lines 444-528, with `fetch` for the outcome of the account query
through `CallRPCWithRetry` (`none` for an account that does not exist) and
`currentTime` for `time.Now().Unix()`. -/
def Client.GetPythPrice {κ : Type} (fetch : κ → Except String (Option (List Byte)))
    (currentTime : Int) (feed : κ) : Except String F64 :=
  match fetch feed with
  | .error e => .error ("failed to fetch Pyth account: " ++ e)
  | .ok none => .error "Pyth account not found"
  | .ok (some data) =>
    match Client.GetPythPrice.price data currentTime with
    | .error e => .error e.text
    | .ok p => .ok p

/-- A read below the length of the buffer succeeds. -/
theorem idx_ok (data : List Byte) (i : Nat) (h : i < data.length) :
    idx data i = .ok (data[i]).val := by
  simp [idx, List.getElem?_eq_getElem h]

/-- A field of width zero has no bytes. -/
theorem fieldBytes_zero (data : List Byte) (o : Nat) : fieldBytes data o 0 = [] := by
  simp [fieldBytes]

/-- The first byte of a field is the byte at its offset. -/
theorem fieldBytes_succ (data : List Byte) (o w : Nat) (h : o < data.length) :
    fieldBytes data o (w + 1) = data[o] :: fieldBytes data (o + 1) w := by
  unfold fieldBytes
  rw [List.drop_eq_getElem_cons h, List.take_succ_cons]

/-- Or-ing a byte shifted past the bits already set adds it (`p` is `2 ^ k`). -/
theorem bor_shl (w x b k p : Nat) (hp : 2 ^ k = p) (hx : x < p) (hb : b < 256)
    (hk : 256 * p ≤ 2 ^ w) :
    bor x (shl w b k) = x + b * p ∧ x + b * p < 256 * p := by
  subst hp
  have h1 : x + b * 2 ^ k < 256 * 2 ^ k := by nlinarith
  have h3 : (b <<< k) % 2 ^ w = b * 2 ^ k := by
    rw [Nat.shiftLeft_eq]
    apply Nat.mod_eq_of_lt
    omega
  refine ⟨?_, h1⟩
  unfold bor shl
  rw [h3, Nat.lor_comm, Nat.mul_comm b, Nat.add_comm]
  exact (Nat.mul_add_lt_is_or hx b).symm

/-- The four-term shift-and-or expression on 32 bits is the little-endian sum. -/
theorem bor4_eq (b0 b1 b2 b3 : Nat) (h0 : b0 < 256) (h1 : b1 < 256) (h2 : b2 < 256)
    (h3 : b3 < 256) :
    bor (bor (bor b0 (shl 32 b1 8)) (shl 32 b2 16)) (shl 32 b3 24)
      = b0 + 256 * (b1 + 256 * (b2 + 256 * (b3 + 256 * 0))) := by
  obtain ⟨s1, l1⟩ := bor_shl 32 b0 b1 8 256 (by norm_num) h0 h1 (by norm_num)
  obtain ⟨s2, l2⟩ := bor_shl 32 (bor b0 (shl 32 b1 8)) b2 16 65536 (by norm_num) (by omega) h2
    (by norm_num)
  obtain ⟨s3, _⟩ := bor_shl 32 (bor (bor b0 (shl 32 b1 8)) (shl 32 b2 16)) b3 24 16777216
    (by norm_num) (by omega) h3 (by norm_num)
  omega

/-- The eight-term shift-and-or expression on 64 bits is the little-endian sum. -/
theorem bor8_eq (b0 b1 b2 b3 b4 b5 b6 b7 : Nat) (h0 : b0 < 256) (h1 : b1 < 256)
    (h2 : b2 < 256) (h3 : b3 < 256) (h4 : b4 < 256) (h5 : b5 < 256) (h6 : b6 < 256)
    (h7 : b7 < 256) :
    bor (bor (bor (bor (bor (bor (bor b0 (shl 64 b1 8)) (shl 64 b2 16)) (shl 64 b3 24))
      (shl 64 b4 32)) (shl 64 b5 40)) (shl 64 b6 48)) (shl 64 b7 56)
      = b0 + 256 * (b1 + 256 * (b2 + 256 * (b3 + 256 * (b4 + 256 * (b5 + 256 * (b6 +
          256 * (b7 + 256 * 0))))))) := by
  obtain ⟨s1, l1⟩ := bor_shl 64 b0 b1 8 256 (by norm_num) h0 h1 (by norm_num)
  obtain ⟨s2, l2⟩ := bor_shl 64 (bor b0 (shl 64 b1 8)) b2 16 65536 (by norm_num) (by omega) h2
    (by norm_num)
  generalize bor b0 (shl 64 b1 8) = x1 at *
  obtain ⟨s3, l3⟩ := bor_shl 64 (bor x1 (shl 64 b2 16)) b3 24 16777216
    (by norm_num) (by omega) h3 (by norm_num)
  generalize bor x1 (shl 64 b2 16) = x2 at *
  obtain ⟨s4, l4⟩ := bor_shl 64 (bor x2 (shl 64 b3 24)) b4 32 4294967296
    (by norm_num) (by omega) h4 (by norm_num)
  generalize bor x2 (shl 64 b3 24) = x3 at *
  obtain ⟨s5, l5⟩ := bor_shl 64 (bor x3 (shl 64 b4 32)) b5 40 1099511627776
    (by norm_num) (by omega) h5 (by norm_num)
  generalize bor x3 (shl 64 b4 32) = x4 at *
  obtain ⟨s6, l6⟩ := bor_shl 64 (bor x4 (shl 64 b5 40)) b6 48 281474976710656
    (by norm_num) (by omega) h6 (by norm_num)
  generalize bor x4 (shl 64 b5 40) = x5 at *
  obtain ⟨s7, _⟩ := bor_shl 64 (bor x5 (shl 64 b6 48)) b7 56 72057594037927936
    (by norm_num) (by omega) h7 (by norm_num)
  omega

/-- The eight-term expression reads the little-endian value of its eight bytes. -/
theorem readBits64_eq (data : List Byte) (o : Nat) (h : o + 8 ≤ data.length) :
    readBits64 data o = .ok (leValue (fieldBytes data o 8)) ∧
      leValue (fieldBytes data o 8) < 18446744073709551616 := by
  have e0 := idx_ok data o (by omega)
  have e1 := idx_ok data (o + 1) (by omega)
  have e2 := idx_ok data (o + 2) (by omega)
  have e3 := idx_ok data (o + 3) (by omega)
  have e4 := idx_ok data (o + 4) (by omega)
  have e5 := idx_ok data (o + 5) (by omega)
  have e6 := idx_ok data (o + 6) (by omega)
  have e7 := idx_ok data (o + 7) (by omega)
  have hf : fieldBytes data o 8 = [data[o], data[o + 1], data[o + 2], data[o + 3],
      data[o + 4], data[o + 5], data[o + 6], data[o + 7]] := by
    rw [fieldBytes_succ data o 7 (by omega), fieldBytes_succ data (o + 1) 6 (by omega),
      fieldBytes_succ data (o + 1 + 1) 5 (by omega),
      fieldBytes_succ data (o + 1 + 1 + 1) 4 (by omega),
      fieldBytes_succ data (o + 1 + 1 + 1 + 1) 3 (by omega),
      fieldBytes_succ data (o + 1 + 1 + 1 + 1 + 1) 2 (by omega),
      fieldBytes_succ data (o + 1 + 1 + 1 + 1 + 1 + 1) 1 (by omega),
      fieldBytes_succ data (o + 1 + 1 + 1 + 1 + 1 + 1 + 1) 0 (by omega), fieldBytes_zero]
  have hb := bor8_eq (data[o]).val (data[o + 1]).val (data[o + 2]).val (data[o + 3]).val
    (data[o + 4]).val (data[o + 5]).val (data[o + 6]).val (data[o + 7]).val
    (data[o]).isLt (data[o + 1]).isLt (data[o + 2]).isLt (data[o + 3]).isLt
    (data[o + 4]).isLt (data[o + 5]).isLt (data[o + 6]).isLt (data[o + 7]).isLt
  constructor
  · simp only [readBits64, e0, e1, e2, e3, e4, e5, e6, e7, bind, Except.bind, pure,
      Except.pure, hb, hf, leValue]
  · simp only [hf, leValue]
    have b0 := (data[o]).isLt
    have b1 := (data[o + 1]).isLt
    have b2 := (data[o + 2]).isLt
    have b3 := (data[o + 3]).isLt
    have b4 := (data[o + 4]).isLt
    have b5 := (data[o + 5]).isLt
    have b6 := (data[o + 6]).isLt
    have b7 := (data[o + 7]).isLt
    omega

/-- The exponent expression reads the layout field. -/
theorem readExpo_eq (data : List Byte) (h : 13 ≤ data.length) :
    readExpo data = .ok (fieldExpo data) := by
  have e0 := idx_ok data 9 (by omega)
  have e1 := idx_ok data 10 (by omega)
  have e2 := idx_ok data 11 (by omega)
  have e3 := idx_ok data 12 (by omega)
  have hf : fieldBytes data 9 4 = [data[9], data[10], data[11], data[12]] := by
    rw [fieldBytes_succ data 9 3 (by omega), fieldBytes_succ data 10 2 (by omega),
      fieldBytes_succ data 11 1 (by omega), fieldBytes_succ data 12 0 (by omega),
      fieldBytes_zero]
  have hb := bor4_eq (data[9]).val (data[10]).val (data[11]).val (data[12]).val
    (data[9]).isLt (data[10]).isLt (data[11]).isLt (data[12]).isLt
  simp only [readExpo, fieldExpo, e0, e1, e2, e3, bind, Except.bind, pure, Except.pure, hb, hf,
    leValue]

/-- The price expression reads the layout field. -/
theorem readPrice_eq (data : List Byte) (h : 21 ≤ data.length) :
    readPrice data = .ok (fieldPrice data) := by
  simp only [readPrice, fieldPrice, (readBits64_eq data 13 (by omega)).1, bind, Except.bind,
    pure, Except.pure]

/-- The confidence expression reads the layout field. -/
theorem readConf_eq (data : List Byte) (h : 29 ≤ data.length) :
    readConf data = .ok (fieldConf data) := by
  have hlt := (readBits64_eq data 21 (by omega)).2
  have hp : (2 : Nat) ^ 64 = 18446744073709551616 := by norm_num
  simp only [readConf, fieldConf, (readBits64_eq data 21 (by omega)).1, bind, Except.bind,
    pure, Except.pure, hp, Nat.mod_eq_of_lt hlt]

/-- The status read is the layout field. -/
theorem readStatus_eq (data : List Byte) (h : 30 ≤ data.length) :
    readStatus data = .ok (fieldStatus data) := by
  have hf : fieldBytes data 29 1 = [data[29]] := by
    rw [fieldBytes_succ data 29 0 (by omega), fieldBytes_zero]
  simp only [readStatus, fieldStatus, idx_ok data 29 (by omega), hf, leValue]
  simp

/-- The publish-time expression reads the layout field. -/
theorem readPublishTime_eq (data : List Byte) (h : 71 ≤ data.length) :
    readPublishTime data = .ok (fieldPublishTime data) := by
  simp only [readPublishTime, fieldPublishTime, (readBits64_eq data 63 (by omega)).1, bind,
    Except.bind, pure, Except.pure]

/-- On a buffer of at least 200 bytes the decoder is the three checks on the
layout fields, in source order. -/
theorem decode_of_long (data : List Byte) (now : Int) (h : 200 ≤ data.length) :
    Client.GetPythPrice.decode data now =
      if fieldStatus data ≠ 1 then .error (.notTrading (fieldStatus data))
      else if wrapInt 64 (now - fieldPublishTime data) > 60 then
        .error (.stale (wrapInt 64 (now - fieldPublishTime data)))
      else if fieldConf data > maxConfidence then .error (.confidenceTooHigh (fieldConf data))
      else .ok { expo := fieldExpo data, price := fieldPrice data, conf := fieldConf data,
                 status := fieldStatus data, publishTime := fieldPublishTime data } := by
  have hlen : ¬ data.length < 200 := by omega
  simp only [Client.GetPythPrice.decode, hlen, readExpo_eq data (by omega),
    readPrice_eq data (by omega), readConf_eq data (by omega), readStatus_eq data (by omega),
    readPublishTime_eq data (by omega), bind, Except.bind, pure, Except.pure, if_false]

/-- A buffer below 200 bytes is rejected before any byte is read. -/
theorem decode_of_short (data : List Byte) (now : Int) (h : data.length < 200) :
    Client.GetPythPrice.decode data now = .error .tooShort := by
  simp only [Client.GetPythPrice.decode, h, if_true, bind, Except.bind]


/-- A value that fits in 64 signed bits is not changed by wrapping. -/
theorem wrapInt_of_range (x : Int) (hlo : -9223372036854775808 ≤ x)
    (hhi : x < 9223372036854775808) : wrapInt 64 x = x := by
  unfold wrapInt
  norm_num
  omega

/-- A wrapped value fits in 64 signed bits. -/
theorem wrapInt_range (x : Int) :
    -9223372036854775808 ≤ wrapInt 64 x ∧ wrapInt 64 x < 9223372036854775808 := by
  unfold wrapInt
  norm_num
  omega

/-- A signed 64-bit reading fits in 64 signed bits. -/
theorem toSigned64_range (n : Nat) :
    -9223372036854775808 ≤ toSigned 64 n ∧ toSigned 64 n < 9223372036854775808 := by
  unfold toSigned
  norm_num
  split_ifs <;> omega

/-- What an accepted buffer guarantees: the fields of the quote are the layout
fields, the status is 1, the confidence is within the threshold and the age as
the source computes it (a wrapped 64-bit difference) is at most 60. -/
theorem decode_ok_fields (data : List Byte) (now : Int) (q : PythQuote)
    (h : Client.GetPythPrice.decode data now = .ok q) :
    200 ≤ data.length ∧ q.status = 1 ∧ q.conf ≤ 1000000 ∧
      wrapInt 64 (now - q.publishTime) ≤ 60 ∧
      q.status = fieldStatus data ∧ q.conf = fieldConf data ∧
      q.publishTime = fieldPublishTime data ∧ q.expo = fieldExpo data ∧
      q.price = fieldPrice data := by
  by_cases hlen : data.length < 200
  · rw [decode_of_short data now hlen] at h
    cases h
  · rw [decode_of_long data now (by omega)] at h
    unfold maxConfidence at h
    split_ifs at h with h1 h2 h3
    cases h
    refine ⟨by omega, ?_, ?_, ?_, rfl, rfl, rfl, rfl, rfl⟩
    · show fieldStatus data = 1
      exact not_not.mp h1
    · show fieldConf data ≤ 1000000
      omega
    · show wrapInt 64 (now - fieldPublishTime data) ≤ 60
      omega

/-- Whenever `now - publishTime` fits in 64 signed bits the decoder is the
reference check of the specification: same order, same boundaries, same
carried values. -/
theorem decode_eq_reference_of_no_overflow (data : List Byte) (now : Int)
    (hlo : -9223372036854775808 ≤ now - fieldPublishTime data)
    (hhi : now - fieldPublishTime data < 9223372036854775808) :
    (Client.GetPythPrice.decode data now).map (fun _ => ()) = referenceCheck data now := by
  by_cases hlen : data.length < 200
  · rw [decode_of_short data now hlen]
    simp [referenceCheck, hlen, Except.map]
  · rw [decode_of_long data now (by omega), wrapInt_of_range _ hlo hhi]
    unfold referenceCheck maxConfidence
    rw [if_neg hlen]
    split_ifs <;> rfl

/-- C1: an accepted quote whose age exceeds 60 seconds.  With byte 29 set to 1
and byte 70 set to 0x80 in an otherwise zero 200-byte buffer the publish time
is `-2 ^ 63`; at `now = 1700000000` the 64-bit difference wraps to a negative
number, the staleness test does not fire and the decoder returns the quote,
although `now - publishTime` is far above 60. -/
theorem decode_accepts_stale_quote :
    Client.GetPythPrice.decode (mkBuffer 200 [(29, 1), (70, 0x80)]) 1700000000
        = .ok { expo := 0, price := 0, conf := 0, status := 1,
                publishTime := -9223372036854775808 } ∧
      (1700000000 : Int) - (-9223372036854775808) > 60 := by
  decide

/-- C2: the decoder and the reference check disagree on a 200-byte buffer with
status 1, confidence 500000 and publish time `-2 ^ 63 + 5` at
`now = 1700000123`: the reference check reports a stale quote, the decoder
succeeds. -/
theorem decode_differs_from_reference :
    (Client.GetPythPrice.decode
        (mkBuffer 200 [(21, 0x20), (22, 0xa1), (23, 0x07), (29, 1), (63, 5), (70, 0x80)])
        1700000123).map (fun _ => ()) = .ok () ∧
      referenceCheck
        (mkBuffer 200 [(21, 0x20), (22, 0xa1), (23, 0x07), (29, 1), (63, 5), (70, 0x80)])
        1700000123 = .error (.stale 9223372038554775926) := by
  decide

/-- C3: on every buffer of at least 200 bytes each shift-and-or expression of
the decoder succeeds (no read is out of bounds) and returns the little-endian
field of the layout table: exponent = signed 32-bit value of bytes 9..12,
rawPrice = signed 64-bit value of bytes 13..20, confidence = unsigned 64-bit
value of bytes 21..28, status = byte 29, publishTime = signed 64-bit value of
bytes 63..70, which is negative exactly when byte 70 is at least 0x80; the
decoder as a whole never ends in an out-of-range read, its outcome at every
`now` is the three checks of the source applied to these fields, and a quote
it returns holds exactly these fields. -/
theorem decoder_reads_layout_fields (data : List Byte) (h : 200 ≤ data.length) :
    readExpo data = .ok (fieldExpo data) ∧
      readPrice data = .ok (fieldPrice data) ∧
      readConf data = .ok (fieldConf data) ∧
      readStatus data = .ok (fieldStatus data) ∧
      readPublishTime data = .ok (fieldPublishTime data) ∧
      (∀ b : Byte, data[29]? = some b → fieldStatus data = b.val) ∧
      (∀ b : Byte, data[70]? = some b → (fieldPublishTime data < 0 ↔ 128 ≤ b.val)) ∧
      (∀ (now : Int) (i : Nat),
        Client.GetPythPrice.decode data now ≠ .error (.indexOutOfRange i)) ∧
      (∀ now : Int,
        Client.GetPythPrice.decode data now =
          if fieldStatus data ≠ 1 then .error (.notTrading (fieldStatus data))
          else if wrapInt 64 (now - fieldPublishTime data) > 60 then
            .error (.stale (wrapInt 64 (now - fieldPublishTime data)))
          else if fieldConf data > maxConfidence then
            .error (.confidenceTooHigh (fieldConf data))
          else .ok { expo := fieldExpo data, price := fieldPrice data,
                     conf := fieldConf data, status := fieldStatus data,
                     publishTime := fieldPublishTime data }) ∧
      (∀ (now : Int) (q : PythQuote), Client.GetPythPrice.decode data now = .ok q →
        q.expo = fieldExpo data ∧ q.price = fieldPrice data ∧ q.conf = fieldConf data ∧
          q.status = fieldStatus data ∧ q.publishTime = fieldPublishTime data) := by
  refine ⟨readExpo_eq data (by omega), readPrice_eq data (by omega),
    readConf_eq data (by omega), readStatus_eq data (by omega),
    readPublishTime_eq data (by omega), ?_, ?_, ?_, fun now => decode_of_long data now h,
    fun now q hq => ?_⟩
  rotate_right
  · have hf := decode_ok_fields data now q hq
    exact ⟨hf.2.2.2.2.2.2.2.1, hf.2.2.2.2.2.2.2.2, hf.2.2.2.2.2.1, hf.2.2.2.2.1,
      hf.2.2.2.2.2.2.1⟩
  · intro b hb
    have hs := readStatus_eq data (by omega)
    simp only [readStatus, idx, hb] at hs
    injection hs with hs
    exact hs.symm
  · intro b hb
    have h70 : data[70] = b := by
      rw [List.getElem?_eq_getElem (by omega)] at hb
      exact Option.some.inj hb
    have hf : fieldBytes data 63 8 = [data[63], data[64], data[65], data[66],
        data[67], data[68], data[69], data[70]] := by
      rw [fieldBytes_succ data 63 7 (by omega), fieldBytes_succ data 64 6 (by omega),
        fieldBytes_succ data 65 5 (by omega), fieldBytes_succ data 66 4 (by omega),
        fieldBytes_succ data 67 3 (by omega), fieldBytes_succ data 68 2 (by omega),
        fieldBytes_succ data 69 1 (by omega), fieldBytes_succ data 70 0 (by omega),
        fieldBytes_zero]
    have b0 := (data[63]).isLt
    have b1 := (data[64]).isLt
    have b2 := (data[65]).isLt
    have b3 := (data[66]).isLt
    have b4 := (data[67]).isLt
    have b5 := (data[68]).isLt
    have b6 := (data[69]).isLt
    have b7 := (data[70]).isLt
    rw [← h70]
    simp only [fieldPublishTime, hf, leValue, toSigned]
    norm_num
    split_ifs <;> omega
  · intro now i hcontra
    rw [decode_of_long data now h] at hcontra
    split_ifs at hcontra <;> cases hcontra

/-- C3, an instance: the example snapshot of the specification is accepted at
`now = 1700000000` with exponent -8, raw price 4500000000000, confidence
500000, status 1 and publish time 1700000000, each read at its offset. -/
theorem decoder_reads_layout_fields_witness :
    200 ≤ exampleBuffer.length ∧
      readExpo exampleBuffer = .ok (fieldExpo exampleBuffer) ∧
      fieldExpo exampleBuffer = -8 ∧
      Client.GetPythPrice.decode exampleBuffer 1700000000
        = .ok { expo := -8, price := 4500000000000, conf := 500000, status := 1,
                publishTime := 1700000000 } :=
  ⟨by decide,
   (decoder_reads_layout_fields exampleBuffer (by decide)).1,
   by decide,
   ((decoder_reads_layout_fields exampleBuffer (by decide)).2.2.2.2.2.2.2.2.1
      1700000000).trans (by decide)⟩

/-! ## Theorems: resilient RPC execution -/

/-- The function `strContains` decides whether `sub` occurs in `s` as a block of
consecutive characters. -/
theorem strContains_iff_infix (s sub : List Char) : strContains s sub = true ↔ sub <:+: s := by
  induction s with
  | nil =>
    cases sub <;> simp [strContains]
  | cons c cs ih =>
    simp only [strContains, Bool.or_eq_true, ih, List.isPrefixOf_iff_prefix,
      List.infix_cons_iff]

/-- An error is retryable exactly when its text contains "429", "timeout" or
"rate limit". -/
theorem isRetryableError_iff (err : String) :
    isRetryableError err = true ↔
      ("429".toList <:+: err.toList ∨ "timeout".toList <:+: err.toList ∨
        "rate limit".toList <:+: err.toList) := by
  simp only [isRetryableError, Bool.or_eq_true, strContains_iff_infix, or_assoc]

/-- The text produced by `fmt.Errorf("RPC call failed after %d attempts", 3)`. -/
theorem exhausted_message :
    "RPC call failed after " ++ toString 3 ++ " attempts" = "RPC call failed after 3 attempts" := by
  decide

/-- C4: with no fallback endpoint, an operation that fails on its first and
second invocation (with a retryable error or any other) and succeeds on its
third makes `CallRPCWithRetry` return success; the operation was invoked three
times, each time on the primary endpoint, with a sleep of 1 second after the
first failure and of 2 seconds after the second, and nothing else. -/
theorem retry_succeeds_on_third_attempt {σ : Type} (fn : Operation σ) (s0 s1 s2 s3 : σ)
    (e1 e2 : String)
    (h1 : fn .primary s0 = (some e1, s1)) (h2 : fn .primary s1 = (some e2, s2))
    (h3 : fn .primary s2 = (none, s3)) :
    Client.CallRPCWithRetry false fn s0 =
      (none, s3, [Event.call .primary, Event.sleep second, Event.call .primary,
        Event.sleep (2 * second), Event.call .primary]) := by
  simp [Client.CallRPCWithRetry, retryRounds, tryEndpoints, invoke, sleepFor, h1, h2, h3]
  omega

/-- C4, an instance: two rate-limit errors, then success. -/
theorem retry_succeeds_on_third_attempt_witness :
    Client.CallRPCWithRetry false (failFirst 2 "429 Too Many Requests") 0 =
      (none, 3, [Event.call .primary, Event.sleep second, Event.call .primary,
        Event.sleep (2 * second), Event.call .primary]) :=
  retry_succeeds_on_third_attempt (failFirst 2 "429 Too Many Requests") 0 1 2 3
    "429 Too Many Requests" "429 Too Many Requests" rfl rfl rfl

/-- C5: with no fallback endpoint, an operation that fails on every invocation
(with any error) makes `CallRPCWithRetry` return the error "RPC call failed
after 3 attempts"; the operation was invoked three times on the primary, with
a sleep of 1 second after the first failure, of 2 seconds after the second and
none after the third. -/
theorem retry_exhausted_after_three {σ : Type} (fn : Operation σ) (s0 : σ)
    (hfail : ∀ s, (fn .primary s).1 ≠ none) :
    (Client.CallRPCWithRetry false fn s0).1 = some "RPC call failed after 3 attempts" ∧
      (Client.CallRPCWithRetry false fn s0).2.2 =
        [Event.call .primary, Event.sleep second, Event.call .primary,
          Event.sleep (2 * second), Event.call .primary] := by
  rcases h1 : fn .primary s0 with ⟨_ | e1, s1⟩
  · exact absurd (by rw [h1]) (hfail s0)
  rcases h2 : fn .primary s1 with ⟨_ | e2, s2⟩
  · exact absurd (by rw [h2]) (hfail s1)
  rcases h3 : fn .primary s2 with ⟨_ | e3, s3⟩
  · exact absurd (by rw [h3]) (hfail s2)
  have hm := exhausted_message
  simp [Client.CallRPCWithRetry, retryRounds, tryEndpoints, invoke, sleepFor, h1, h2, h3, hm]
  omega

/-- C5, an instance: three errors that are not retryable. -/
theorem retry_exhausted_after_three_witness :
    (Client.CallRPCWithRetry false (failAlways "connection refused") 0).1
        = some "RPC call failed after 3 attempts" ∧
      (Client.CallRPCWithRetry false (failAlways "connection refused") 0).2.2 =
        [Event.call .primary, Event.sleep second, Event.call .primary,
          Event.sleep (2 * second), Event.call .primary] :=
  retry_exhausted_after_three (failAlways "connection refused") 0
    (fun _ h => Option.noConfusion h)

/-- C6: with a fallback endpoint configured, a primary invocation that fails
with a retryable error and a fallback invocation that succeeds make
`CallRPCWithRetry` return success in the first round: one call on the primary,
one on the fallback, no sleep. -/
theorem fallback_success_without_sleep {σ : Type} (fn : Operation σ) (s0 s1 s2 : σ)
    (e : String) (h1 : fn .primary s0 = (some e, s1)) (hr : isRetryableError e = true)
    (h2 : fn .fallback s1 = (none, s2)) :
    Client.CallRPCWithRetry true fn s0 =
      (none, s2, [Event.call .primary, Event.call .fallback]) := by
  simp [Client.CallRPCWithRetry, retryRounds, tryEndpoints, invoke, h1, h2, hr]

/-- C6, an instance: the primary times out, the fallback answers. -/
theorem fallback_success_without_sleep_witness :
    isRetryableError "i/o timeout" = true ∧
      Client.CallRPCWithRetry true primaryDown 0 =
        (none, 2, [Event.call .primary, Event.call .fallback]) :=
  ⟨by decide,
   fallback_success_without_sleep primaryDown 0 1 2 "i/o timeout" rfl (by decide) rfl⟩

/-- The events of a round do not depend on the log it starts with: they are
appended to it. -/
theorem tryEndpoints_log {σ : Type} (hasFallback : Bool) (fn : Operation σ) (s : σ)
    (l : List Event) :
    tryEndpoints hasFallback fn { st := s, log := l } =
      ((tryEndpoints hasFallback fn { st := s, log := [] }).1,
       { st := (tryEndpoints hasFallback fn { st := s, log := [] }).2.st,
         log := l ++ roundEvents hasFallback fn s }) := by
  rcases h1 : fn .primary s with ⟨_ | e, s1⟩
  · simp [roundEvents, tryEndpoints, invoke, h1]
  · by_cases hc : (isRetryableError e && hasFallback) = true
    · simp [roundEvents, tryEndpoints, invoke, h1, hc]
    · simp [roundEvents, tryEndpoints, invoke, h1, hc]

/-- A round consists of calls only. -/
theorem roundEvents_filter {σ : Type} (hasFallback : Bool) (fn : Operation σ) (s : σ) :
    (roundEvents hasFallback fn s).filter Event.isCall = roundEvents hasFallback fn s := by
  rcases h1 : fn .primary s with ⟨_ | e, s1⟩
  · simp [roundEvents, tryEndpoints, invoke, h1, Event.isCall]
  · by_cases hc : (isRetryableError e && hasFallback) = true
    · simp [roundEvents, tryEndpoints, invoke, h1, hc, Event.isCall]
    · simp [roundEvents, tryEndpoints, invoke, h1, hc, Event.isCall]

/-- The calls of the retry loop, in order, are the events of its rounds. -/
theorem retryRounds_calls {σ : Type} (hasFallback : Bool) (fn : Operation σ) (m : Nat)
    (k b : Nat) (w : World σ) :
    (retryRounds hasFallback fn m k b w).2.log.filter Event.isCall =
      w.log.filter Event.isCall ++
        (roundStarts hasFallback fn k w.st).flatMap (roundEvents hasFallback fn) := by
  induction k generalizing b w with
  | zero => simp [retryRounds, roundStarts]
  | succ k ih =>
    obtain ⟨s, l⟩ := w
    unfold retryRounds roundStarts
    rw [tryEndpoints_log hasFallback fn s l]
    rcases h : tryEndpoints hasFallback fn { st := s, log := [] } with ⟨_ | e, w1⟩
    · simp [roundEvents_filter]
    · simp only []
      split_ifs
      · rw [ih]
        simp [sleepFor, roundEvents_filter, Event.isCall]
      · rw [ih]
        simp [roundEvents_filter]

/-- C7: the calls of a run of `CallRPCWithRetry` are, in order, the calls of
its rounds; in a round started in any state the fallback endpoint is invoked if
and only if a fallback is configured and the primary's error in that round is
retryable, and the primary is invoked first in every round; an operation that
always fails retryably, with a fallback configured, is invoked on the primary
and then on the fallback in each of the 3 rounds; an operation that always
fails with a non-retryable error is invoked 3 times on the primary, never on
the fallback, with sleeps of 1 second and then 2 seconds.  Retryable means
that the error text contains "429", "timeout" or "rate limit". -/
theorem fallback_iff_retryable {σ : Type} (fn : Operation σ) (s0 : σ) :
    (∀ e : String, isRetryableError e = true ↔
        ("429".toList <:+: e.toList ∨ "timeout".toList <:+: e.toList ∨
          "rate limit".toList <:+: e.toList)) ∧
      (∀ hasFallback : Bool,
        (Client.CallRPCWithRetry hasFallback fn s0).2.2.filter Event.isCall =
          (roundStarts hasFallback fn 3 s0).flatMap (roundEvents hasFallback fn)) ∧
      (∀ (hasFallback : Bool) (s : σ),
        (Event.call .fallback ∈ roundEvents hasFallback fn s ↔
          (hasFallback = true ∧
            ∃ e, (fn .primary s).1 = some e ∧ isRetryableError e = true)) ∧
        (roundEvents hasFallback fn s).head? = some (Event.call .primary)) ∧
      ((∀ ep s, ∃ e, (fn ep s).1 = some e ∧ isRetryableError e = true) →
        (Client.CallRPCWithRetry true fn s0).1 = some "RPC call failed after 3 attempts" ∧
        (Client.CallRPCWithRetry true fn s0).2.2 =
          [Event.call .primary, Event.call .fallback, Event.sleep second,
           Event.call .primary, Event.call .fallback, Event.sleep (2 * second),
           Event.call .primary, Event.call .fallback]) ∧
      ((∀ ep s, ∃ e, (fn ep s).1 = some e ∧ isRetryableError e = false) →
        ∀ hasFallback : Bool,
          (Client.CallRPCWithRetry hasFallback fn s0).1
              = some "RPC call failed after 3 attempts" ∧
            (Client.CallRPCWithRetry hasFallback fn s0).2.2 =
              [Event.call .primary, Event.sleep second, Event.call .primary,
               Event.sleep (2 * second), Event.call .primary]) := by
  refine ⟨isRetryableError_iff, ?_, ?_, ?_, ?_⟩
  · intro hasFallback
    have h := retryRounds_calls hasFallback fn 3 3 second { st := s0, log := [] }
    simpa [Client.CallRPCWithRetry] using h
  · intro hasFallback s
    rcases h1 : fn .primary s with ⟨_ | e, s1⟩
    · simp [roundEvents, tryEndpoints, invoke, h1]
    · by_cases hr : isRetryableError e = true <;> cases hasFallback <;>
        simp [roundEvents, tryEndpoints, invoke, h1, hr]
  · intro hall
    have hm := exhausted_message
    obtain ⟨e1, h1, r1⟩ := hall .primary s0
    obtain ⟨e2, h2, r2⟩ := hall .fallback (fn .primary s0).2
    obtain ⟨e3, h3, r3⟩ := hall .primary (fn .fallback (fn .primary s0).2).2
    obtain ⟨e4, h4, r4⟩ := hall .fallback (fn .primary (fn .fallback (fn .primary s0).2).2).2
    obtain ⟨e5, h5, r5⟩ := hall .primary
      (fn .fallback (fn .primary (fn .fallback (fn .primary s0).2).2).2).2
    obtain ⟨e6, h6, r6⟩ := hall .fallback
      (fn .primary (fn .fallback (fn .primary (fn .fallback (fn .primary s0).2).2).2).2).2
    simp [Client.CallRPCWithRetry, retryRounds, tryEndpoints, invoke, sleepFor, h1, h2, h3, h4,
      h5, h6, r1, r2, r3, r4, r5, r6, hm]
    omega
  · intro hall hasFallback
    have hm := exhausted_message
    obtain ⟨e1, h1, r1⟩ := hall .primary s0
    obtain ⟨e2, h2, r2⟩ := hall .primary (fn .primary s0).2
    obtain ⟨e3, h3, r3⟩ := hall .primary (fn .primary (fn .primary s0).2).2
    simp [Client.CallRPCWithRetry, retryRounds, tryEndpoints, invoke, sleepFor, h1, h2, h3,
      r1, r2, r3, hm]
    omega

/-- C7, an instance: a rate-limited operation is tried on both endpoints in
every round, a refused connection only on the primary. -/
theorem fallback_iff_retryable_witness :
    (Client.CallRPCWithRetry true (failAlways "rate limit exceeded") 0).2.2 =
        [Event.call .primary, Event.call .fallback, Event.sleep second,
         Event.call .primary, Event.call .fallback, Event.sleep (2 * second),
         Event.call .primary, Event.call .fallback] ∧
      (Client.CallRPCWithRetry true (failAlways "connection refused") 0).2.2 =
        [Event.call .primary, Event.sleep second, Event.call .primary,
         Event.sleep (2 * second), Event.call .primary] :=
  ⟨((fallback_iff_retryable (failAlways "rate limit exceeded") 0).2.2.2.1
      (fun _ _ => ⟨"rate limit exceeded", rfl, by decide⟩)).2,
   ((fallback_iff_retryable (failAlways "connection refused") 0).2.2.2.2
      (fun _ _ => ⟨"connection refused", rfl, by decide⟩) true).2⟩

/-! ## Theorems: webhook channel -/

/-- A parsed timestamp fits in 64 signed bits. -/
theorem parseInt64_range (s : String) (ts : Int) (h : parseInt64 s = some ts) :
    -9223372036854775808 ≤ ts ∧ ts < 9223372036854775808 := by
  unfold parseInt64 at h
  split at h
  · cases h
  · rename_i c cs _
    simp only at h
    split at h
    · cases h
    · rename_i un _
      norm_num at h
      obtain ⟨hpos, hneg, hts⟩ := h
      by_cases hc : c = '-'
      · have := hneg hc
        rw [if_pos hc] at hts
        omega
      · have := hpos hc
        rw [if_neg hc] at hts
        omega

/-- The empty string does not parse. -/
theorem parseInt64_ne_empty (s : String) (ts : Int) (h : parseInt64 s = some ts) : s ≠ "" := by
  intro hs
  subst hs
  simp [parseInt64] at h

/-- The hex form of a 32-byte digest is not the empty string. -/
theorem hexEncode_ne_empty (d : List Byte) (h : d.length = 32) : hexEncode d ≠ "" := by
  cases d with
  | nil => simp at h
  | cons b bs =>
    intro hc
    have := congrArg String.data hc
    simp [hexEncode] at this

/-- C8: for every secret, payload and timestamp string that parses as an
integer `ts` inside the replay window (`now - ts` at most 300000 ms, the clock
not before the Unix epoch), the signature of the outbound signer, the same in
`Server` and `Scheduler`, is accepted by `hmacMiddleware` with the same secret
on a request carrying that timestamp, that signature and that payload as
body: the next handler is invoked with the request and its body. -/
theorem hmac_round_trip (mac : MacFn) (secret payload timestamp path : String) (now ts : Int)
    (hparse : parseInt64 timestamp = some ts) (hnow : 0 ≤ now) (hwin : now - ts ≤ 300000) :
    Scheduler.generateHMAC mac secret payload timestamp
        = Server.generateHMAC mac secret payload timestamp ∧
      Server.hmacMiddleware mac secret now
          { path := path, xTimestamp := timestamp,
            xSignature := Scheduler.generateHMAC mac secret payload timestamp,
            body := some payload }
        = .next { path := path, xTimestamp := timestamp,
                  xSignature := Server.generateHMAC mac secret payload timestamp,
                  body := some payload } := by
  refine ⟨rfl, ?_⟩
  have hr := parseInt64_range timestamp ts hparse
  have hne := parseInt64_ne_empty timestamp ts hparse
  have hsig : Server.generateHMAC mac secret payload timestamp ≠ "" :=
    hexEncode_ne_empty _ (mac secret (timestamp ++ "." ++ payload)).property
  have hw : wrapInt 64 (now - ts) = now - ts := wrapInt_of_range _ (by omega) (by omega)
  unfold Server.hmacMiddleware
  by_cases hp : path = "/v1/health"
  · simp [hp, Scheduler.generateHMAC, Server.generateHMAC]
  · simp only [hp, if_false, Scheduler.generateHMAC]
    simp only [Server.generateHMAC] at hsig
    simp [hne, hsig, hparse, hw, Server.generateHMAC]
    omega

/-- C8, an instance: secret "s", payload "{}" written with its two characters,
timestamp 1700000000000 and the clock 1 ms later. -/
theorem hmac_round_trip_witness :
    Server.hmacMiddleware zeroMac "s" 1700000000001
        { path := "/v1/contracts/initialize", xTimestamp := "1700000000000",
          xSignature := Scheduler.generateHMAC zeroMac "s" "\x7b\x7d" "1700000000000",
          body := some "\x7b\x7d" }
      = .next { path := "/v1/contracts/initialize", xTimestamp := "1700000000000",
                xSignature := Server.generateHMAC zeroMac "s" "\x7b\x7d" "1700000000000",
                body := some "\x7b\x7d" } :=
  (hmac_round_trip zeroMac "s" "\x7b\x7d" "1700000000000" "/v1/contracts/initialize"
    1700000000001 1700000000000 (by decide) (by decide) (by decide)).2

/-- Replay rejection as far as it holds: a request outside the health path
whose timestamp parses to `ts` with `now - ts` above 300000 ms and below
`2 ^ 63` is answered by the middleware itself, whatever its signature. -/
theorem replay_rejected_of_no_overflow (mac : MacFn) (secret : String) (now ts : Int)
    (r : Request) (hpath : r.path ≠ "/v1/health") (hparse : parseInt64 r.xTimestamp = some ts)
    (hold : now - ts > 300000) (hfit : now - ts < 9223372036854775808) :
    ∃ resp, Server.hmacMiddleware mac secret now r = .respond resp := by
  have hw : wrapInt 64 (now - ts) = now - ts := wrapInt_of_range _ (by omega) hfit
  have hexp : wrapInt 64 (now - ts) > 5 * 60 * 1000 := by rw [hw]; omega
  unfold Server.hmacMiddleware
  simp only [hpath, if_false, hparse]
  split_ifs
  · exact ⟨_, rfl⟩
  · exact ⟨_, rfl⟩

/-- C9: a request that the replay window should reject and the middleware
hands to the next handler.  The timestamp header "-9223372036854775808"
parses to `-2 ^ 63`, which at `now = 1700000000000` is more than 300000 ms in
the past; the 64-bit difference `now - ts` wraps to a negative number, the
expiry test does not fire, and with the correct signature for that timestamp
and body the request is accepted. -/
theorem expired_request_accepted (mac : MacFn) (secret body : String) :
    parseInt64 "-9223372036854775808" = some (-9223372036854775808) ∧
      (1700000000000 : Int) - (-9223372036854775808) > 300000 ∧
      Server.hmacMiddleware mac secret 1700000000000
          { path := "/v1/contracts/initialize", xTimestamp := "-9223372036854775808",
            xSignature := Server.generateHMAC mac secret body "-9223372036854775808",
            body := some body }
        = .next { path := "/v1/contracts/initialize", xTimestamp := "-9223372036854775808",
                  xSignature := Server.generateHMAC mac secret body "-9223372036854775808",
                  body := some body } := by
  have hparse : parseInt64 "-9223372036854775808" = some (-9223372036854775808) := by decide
  have hsig : Server.generateHMAC mac secret body "-9223372036854775808" ≠ "" :=
    hexEncode_ne_empty _ (mac secret ("-9223372036854775808" ++ "." ++ body)).property
  have hw : ¬ (wrapInt 64 (1700000000000 - (-9223372036854775808)) > 5 * 60 * 1000) := by
    decide
  have hp : ¬ ("/v1/contracts/initialize" = "/v1/health") := by decide
  have hts : ¬ ("-9223372036854775808" = "") := by decide
  refine ⟨hparse, by decide, ?_⟩
  unfold Server.hmacMiddleware
  simp only [hp, if_false, hts, hsig, false_or, hparse, hw]
  simp only [Server.generateHMAC, not_true_eq_false, if_false]

/-- C10: two authentication failures with different responses.  At the same
clock and secret a request without the two headers is answered with status
401 and message "Missing HMAC headers", a request with an unparsable timestamp
with status 400 and "Invalid timestamp", an expired one with 401 and "Request
expired", one with a wrong signature with 401 and "Invalid signature". -/
theorem auth_failure_responses_differ :
    Server.hmacMiddleware zeroMac "s" 1700000000000
        { path := "/v1/contracts/initialize", xTimestamp := "", xSignature := "",
          body := some "" }
      = .respond { status := 401, json := [("error", "Missing HMAC headers")] } ∧
    Server.hmacMiddleware zeroMac "s" 1700000000000
        { path := "/v1/contracts/initialize", xTimestamp := "yesterday", xSignature := "00",
          body := some "" }
      = .respond { status := 400, json := [("error", "Invalid timestamp")] } ∧
    Server.hmacMiddleware zeroMac "s" 1700000000000
        { path := "/v1/contracts/initialize", xTimestamp := "1600000000000",
          xSignature := "00", body := some "" }
      = .respond { status := 401, json := [("error", "Request expired")] } ∧
    Server.hmacMiddleware zeroMac "s" 1700000000000
        { path := "/v1/contracts/initialize", xTimestamp := "1700000000000",
          xSignature := "00", body := some "" }
      = .respond { status := 401, json := [("error", "Invalid signature")] } ∧
    (Handled.respond { status := 401, json := [("error", "Missing HMAC headers")] }
      ≠ Handled.respond { status := 400, json := [("error", "Invalid timestamp")] }) ∧
    (Handled.respond { status := 401, json := [("error", "Request expired")] }
      ≠ Handled.respond { status := 401, json := [("error", "Invalid signature")] }) := by
  decide

/-- C10 as amended: outside the health path every authentication failure is
answered by the middleware itself, with a JSON object whose only key is
"error", and the status and message are those of the check that failed: 401
"Missing HMAC headers" for a missing header, 400 "Invalid timestamp" for a
timestamp that does not parse, 401 "Request expired" for a timestamp whose
age as the middleware computes it is above 300000 ms, 400 "Failed to read
body" for an unreadable body, 401 "Invalid signature" for a signature other
than the expected one. -/
theorem auth_failure_response (mac : MacFn) (secret : String) (now : Int) (r : Request)
    (hpath : r.path ≠ "/v1/health") :
    ((r.xTimestamp = "" ∨ r.xSignature = "") →
        Server.hmacMiddleware mac secret now r
          = .respond { status := 401, json := [("error", "Missing HMAC headers")] }) ∧
      (r.xTimestamp ≠ "" → r.xSignature ≠ "" → parseInt64 r.xTimestamp = none →
        Server.hmacMiddleware mac secret now r
          = .respond { status := 400, json := [("error", "Invalid timestamp")] }) ∧
      (∀ ts, r.xSignature ≠ "" → parseInt64 r.xTimestamp = some ts →
        wrapInt 64 (now - ts) > 300000 →
        Server.hmacMiddleware mac secret now r
          = .respond { status := 401, json := [("error", "Request expired")] }) ∧
      (∀ ts, r.xSignature ≠ "" → parseInt64 r.xTimestamp = some ts →
        wrapInt 64 (now - ts) ≤ 300000 → r.body = none →
        Server.hmacMiddleware mac secret now r
          = .respond { status := 400, json := [("error", "Failed to read body")] }) ∧
      (∀ ts body, r.xSignature ≠ "" → parseInt64 r.xTimestamp = some ts →
        wrapInt 64 (now - ts) ≤ 300000 → r.body = some body →
        r.xSignature ≠ hexEncode (mac secret (r.xTimestamp ++ "." ++ body)).val →
        Server.hmacMiddleware mac secret now r
          = .respond { status := 401, json := [("error", "Invalid signature")] }) ∧
      (∀ resp, Server.hmacMiddleware mac secret now r = .respond resp →
        (resp.status = 401 ∨ resp.status = 400) ∧ ∃ msg, resp.json = [("error", msg)]) := by
  refine ⟨?_, ?_, ?_, ?_, ?_, ?_⟩
  · intro h
    simp [Server.hmacMiddleware, hpath, h, Server.respondError, Server.respondJSON,
      StatusUnauthorized]
  · intro h1 h2 h3
    simp [Server.hmacMiddleware, hpath, h1, h2, h3, Server.respondError, Server.respondJSON,
      StatusBadRequest]
  · intro ts h2 h3 h4
    have h1 := parseInt64_ne_empty _ _ h3
    have h5 : wrapInt 64 (now - ts) > 5 * 60 * 1000 := by omega
    simp only [Server.hmacMiddleware, hpath, h1, h2, h3, h5, Server.respondError,
      Server.respondJSON, StatusUnauthorized, if_false, false_or, if_true]
  · intro ts h2 h3 h4 h6
    have h1 := parseInt64_ne_empty _ _ h3
    have h5 : ¬ (wrapInt 64 (now - ts) > 5 * 60 * 1000) := by omega
    simp only [Server.hmacMiddleware, hpath, h1, h2, h3, h5, h6, Server.respondError,
      Server.respondJSON, StatusBadRequest, if_false, false_or]
  · intro ts body h2 h3 h4 h6 h7
    have h1 := parseInt64_ne_empty _ _ h3
    have h5 : ¬ (wrapInt 64 (now - ts) > 5 * 60 * 1000) := by omega
    simp only [Server.hmacMiddleware, hpath, h1, h2, h3, h5, h6, h7, Server.respondError,
      Server.respondJSON, StatusUnauthorized, if_false, false_or, not_false_eq_true, if_true]
  · intro resp h
    unfold Server.hmacMiddleware at h
    simp only [hpath, if_false, Server.respondError, Server.respondJSON, StatusUnauthorized,
      StatusBadRequest] at h
    split_ifs at h
    · cases h; exact ⟨Or.inl rfl, _, rfl⟩
    · split at h
      · cases h; exact ⟨Or.inr rfl, _, rfl⟩
      · split_ifs at h
        · cases h; exact ⟨Or.inl rfl, _, rfl⟩
        · split at h
          · cases h; exact ⟨Or.inr rfl, _, rfl⟩
          · split_ifs at h
            cases h; exact ⟨Or.inl rfl, _, rfl⟩

/-- C10 as amended, an instance: a settle request without headers. -/
theorem auth_failure_response_witness :
    Server.hmacMiddleware zeroMac "s" 1700000000000
        { path := "/v1/contracts/7/settle", xTimestamp := "", xSignature := "",
          body := some "" }
      = .respond { status := 401, json := [("error", "Missing HMAC headers")] } :=
  (auth_failure_response zeroMac "s" 1700000000000
    { path := "/v1/contracts/7/settle", xTimestamp := "", xSignature := "", body := some "" }
    (by decide)).1 (Or.inl rfl)

/-! ## Theorems: acceptance condition and binding of the signature -/

/-- Whatever the outcome, a request handed to the next handler is the request
received, with the body that was read. -/
theorem next_request_eq (mac : MacFn) (secret : String) (now : Int) (r r' : Request)
    (h : Server.hmacMiddleware mac secret now r = .next r') : r' = r := by
  unfold Server.hmacMiddleware at h
  by_cases hp : r.path = "/v1/health"
  · simp only [hp, if_true] at h
    cases h; rfl
  · by_cases hh : r.xTimestamp = "" ∨ r.xSignature = ""
    · simp [hp, hh] at h
    · rcases hparse : parseInt64 r.xTimestamp with _ | ts
      · simp [hp, hh, hparse] at h
      · by_cases hlt : 300000 < wrapInt 64 (now - ts)
        · simp [hp, hh, hparse, hlt] at h
        · rcases hb : r.body with _ | body
          · simp [hp, hh, hparse, hlt, hb] at h
          · by_cases hsig : r.xSignature
                = hexEncode (mac secret (r.xTimestamp ++ "." ++ body)).val
            · simp [hp, hh, hparse, hlt, hb, ← hsig] at h
              rw [← h]
              cases r
              simp only at hb
              subst hb
              rfl
            · simp [hp, hh, hparse, hlt, hb, hsig] at h

/-- The middleware hands a request on exactly when the acceptance condition
holds with the age `now - ts` taken as the wrapped 64-bit difference. -/
theorem next_iff_wrapped (mac : MacFn) (secret : String) (now : Int) (r : Request) :
    (∃ r', Server.hmacMiddleware mac secret now r = .next r') ↔
      (r.path = "/v1/health" ∨
        (r.xTimestamp ≠ "" ∧ r.xSignature ≠ "" ∧
          ∃ ts body, parseInt64 r.xTimestamp = some ts ∧ wrapInt 64 (now - ts) ≤ 300000 ∧
            r.body = some body ∧
            r.xSignature = hexEncode (mac secret (r.xTimestamp ++ "." ++ body)).val)) := by
  unfold Server.hmacMiddleware
  by_cases hp : r.path = "/v1/health"
  · simp [hp]
  · by_cases ht : r.xTimestamp = ""
    · simp [hp, ht]
    · by_cases hs : r.xSignature = ""
      · simp [hp, ht, hs]
      · rcases hparse : parseInt64 r.xTimestamp with _ | ts
        · simp [hp, ht, hs, hparse]
        · by_cases hage : 300000 < wrapInt 64 (now - ts)
          · have : ¬ wrapInt 64 (now - ts) ≤ 300000 := by omega
            simp [hp, ht, hs, hparse, hage, this]
          · have : wrapInt 64 (now - ts) ≤ 300000 := by omega
            rcases hb : r.body with _ | body
            · simp [hp, ht, hs, hparse, hage, hb]
            · by_cases hsig : r.xSignature
                  = hexEncode (mac secret (r.xTimestamp ++ "." ++ body)).val
              · simp [hp, ht, hs, hparse, hage, hb, this, ← hsig]
              · simp [hp, ht, hs, hparse, hage, hb, this, hsig]

/-- Whenever `now - ts` fits in 64 signed bits for the parsed timestamp, the
middleware hands a request on exactly under the acceptance condition of the
specification. -/
theorem next_iff_expected_of_no_overflow (mac : MacFn) (secret : String) (now : Int)
    (r : Request)
    (hfit : ∀ ts, parseInt64 r.xTimestamp = some ts →
      -9223372036854775808 ≤ now - ts ∧ now - ts < 9223372036854775808) :
    (∃ r', Server.hmacMiddleware mac secret now r = .next r') ↔
      NextExpected mac secret now r := by
  rw [next_iff_wrapped]
  unfold NextExpected
  constructor
  · rintro (h | ⟨h1, h2, ts, body, h3, h4, h5, h6⟩)
    · exact Or.inl h
    · have hw := wrapInt_of_range _ (hfit ts h3).1 (hfit ts h3).2
      exact Or.inr ⟨h1, h2, ts, body, h3, by omega, h5, h6⟩
  · rintro (h | ⟨h1, h2, ts, body, h3, h4, h5, h6⟩)
    · exact Or.inl h
    · have hw := wrapInt_of_range _ (hfit ts h3).1 (hfit ts h3).2
      exact Or.inr ⟨h1, h2, ts, body, h3, by omega, h5, h6⟩

/-- C11: a request that is handed to the business handler although the
acceptance condition fails.  With the timestamp header "-9223372036854775808"
and the matching signature, at `now = 1700000000000`, the middleware calls the
next handler with the received request; the condition of the claim does not
hold, because `now - ts` is far above 300000 ms. -/
theorem next_invoked_outside_condition (mac : MacFn) (secret body : String) :
    Server.hmacMiddleware mac secret 1700000000000
        { path := "/v1/contracts/7/settle", xTimestamp := "-9223372036854775808",
          xSignature := Server.generateHMAC mac secret body "-9223372036854775808",
          body := some body }
      = .next { path := "/v1/contracts/7/settle", xTimestamp := "-9223372036854775808",
                xSignature := Server.generateHMAC mac secret body "-9223372036854775808",
                body := some body } ∧
    ¬ NextExpected mac secret 1700000000000
        { path := "/v1/contracts/7/settle", xTimestamp := "-9223372036854775808",
          xSignature := Server.generateHMAC mac secret body "-9223372036854775808",
          body := some body } := by
  have hparse : parseInt64 "-9223372036854775808" = some (-9223372036854775808) := by decide
  have hsig : Server.generateHMAC mac secret body "-9223372036854775808" ≠ "" :=
    hexEncode_ne_empty _ (mac secret ("-9223372036854775808" ++ "." ++ body)).property
  have hw : ¬ (wrapInt 64 (1700000000000 - (-9223372036854775808)) > 5 * 60 * 1000) := by
    decide
  have hp : ¬ ("/v1/contracts/7/settle" = "/v1/health") := by decide
  have hts : ¬ ("-9223372036854775808" = "") := by decide
  constructor
  · unfold Server.hmacMiddleware
    simp only [hp, if_false, hts, hsig, false_or, hparse, hw]
    simp only [Server.generateHMAC, not_true_eq_false, if_false]
  · unfold NextExpected
    rintro (h | ⟨_, _, ts, b, h3, h4, _, _⟩)
    · exact hp h
    · simp only [hparse] at h3
      injection h3 with h3
      subst h3
      omega
/-- A successful `parseUint64` has read decimal digits only. -/
theorem parseUint64_digits (ds : List Char) (n : Nat) (h : parseUint64 ds = some n) :
    ∀ c ∈ ds, digitVal c ≠ none := by
  unfold parseUint64 at h
  split_ifs at h
  have key : ∀ (l : List Char) (a m : Nat),
      l.foldlM (fun n c =>
        match digitVal c with
        | none => none
        | some d => if n * 10 + d < 2 ^ 64 then some (n * 10 + d) else none) a = some m →
      ∀ c ∈ l, digitVal c ≠ none := by
    intro l
    induction l with
    | nil => intro a m _ c hc; cases hc
    | cons x xs ih =>
      intro a m hm c hc
      rw [List.foldlM_cons] at hm
      rcases hx : digitVal x with _ | d
      · simp [hx] at hm
      · simp only [hx] at hm
        split_ifs at hm
        · rcases List.mem_cons.mp hc with rfl | hc'
          · rw [hx]; exact Option.some_ne_none d
          · exact ih _ m hm c hc'
        · simp at hm
  exact key ds 0 n h

/-- A timestamp that parses holds no full stop. -/
theorem parseInt64_no_dot (s : String) (ts : Int) (h : parseInt64 s = some ts) :
    '.' ∉ s.toList := by
  have hdot : digitVal '.' = none := by decide
  unfold parseInt64 at h
  split at h
  · cases h
  · rename_i c cs hs
    simp only at h
    split at h
    · cases h
    · rename_i un hun
      have hd := parseUint64_digits _ un hun
      rw [hs]
      intro hmem
      by_cases hc : c = '+' ∨ c = '-'
      · rw [if_pos hc] at hd
        rcases List.mem_cons.mp hmem with h1 | h1
        · rcases hc with hc | hc <;> rw [hc] at h1 <;> exact absurd h1 (by decide)
        · exact hd _ h1 hdot
      · rw [if_neg hc] at hd
        exact hd _ hmem hdot

/-- Two strings without a full stop, each followed by a full stop and a rest,
are split the same way. -/
theorem split_at_dot (l1 l2 b1 b2 : List Char) (h1 : '.' ∉ l1) (h2 : '.' ∉ l2)
    (h : l1 ++ '.' :: b1 = l2 ++ '.' :: b2) : l1 = l2 ∧ b1 = b2 := by
  induction l1 generalizing l2 with
  | nil =>
    cases l2 with
    | nil => simpa using h
    | cons y ys =>
      simp only [List.nil_append, List.cons_append, List.cons.injEq] at h
      exact absurd (h.1 ▸ List.mem_cons_self _ _) h2
  | cons x xs ih =>
    cases l2 with
    | nil =>
      simp only [List.nil_append, List.cons_append, List.cons.injEq] at h
      exact absurd (h.1 ▸ List.mem_cons_self _ _) h1
    | cons y ys =>
      simp only [List.cons_append, List.cons.injEq] at h
      obtain ⟨hxy, hrest⟩ := h
      have := ih ys (fun hm => h1 (List.mem_cons_of_mem _ hm))
        (fun hm => h2 (List.mem_cons_of_mem _ hm)) hrest
      exact ⟨by rw [hxy, this.1], this.2⟩

/-- The hex digits of two different nibbles differ. -/
theorem hexDigit_inj (a b : Fin 16) (h : hexDigit a.val = hexDigit b.val) : a = b := by
  revert a b
  decide

/-- The hex form determines the bytes. -/
theorem hexEncode_inj (d1 d2 : List Byte) (h : hexEncode d1 = hexEncode d2) : d1 = d2 := by
  have hl : (d1.flatMap fun b => [hexDigit (b.val / 16), hexDigit (b.val % 16)]) =
      (d2.flatMap fun b => [hexDigit (b.val / 16), hexDigit (b.val % 16)]) := by
    have := congrArg String.data h
    simpa [hexEncode] using this
  clear h
  induction d1 generalizing d2 with
  | nil =>
    cases d2 with
    | nil => rfl
    | cons y ys => simp at hl
  | cons x xs ih =>
    cases d2 with
    | nil => simp at hl
    | cons y ys =>
      simp only [List.flatMap_cons, List.cons_append, List.nil_append, List.cons.injEq] at hl
      obtain ⟨hhi, hlo, hrest⟩ := hl
      have e1 := hexDigit_inj ⟨x.val / 16, by omega⟩ ⟨y.val / 16, by omega⟩ hhi
      have e2 := hexDigit_inj ⟨x.val % 16, by omega⟩ ⟨y.val % 16, by omega⟩ hlo
      have e1' : x.val / 16 = y.val / 16 := congrArg Fin.val e1
      have e2' : x.val % 16 = y.val % 16 := congrArg Fin.val e2
      have hxy : x = y := Fin.ext (by omega)
      rw [hxy, ih ys hrest]

/-- C19: for two (timestamp, body) pairs whose timestamps pass the verifier's
integer parse, the authenticated strings timestamp + "." + body are equal only
if the timestamps are equal and the bodies are equal; so a request (outside
the health path) that carries the signature made for one pair and a different
pair is handed to the next handler only if HMAC gives the same digest for two
different messages. -/
theorem signature_binds_timestamp_and_payload (timestamp timestamp' body body' : String)
    (ts ts' : Int) (h : parseInt64 timestamp = some ts) (h' : parseInt64 timestamp' = some ts') :
    (timestamp ++ "." ++ body = timestamp' ++ "." ++ body' →
        timestamp = timestamp' ∧ body = body') ∧
      (∀ (mac : MacFn) (secret path : String) (now : Int) (r' : Request),
        path ≠ "/v1/health" →
        (timestamp' ≠ timestamp ∨ body' ≠ body) →
        Server.hmacMiddleware mac secret now
            { path := path, xTimestamp := timestamp',
              xSignature := Server.generateHMAC mac secret body timestamp,
              body := some body' } = .next r' →
        timestamp' ++ "." ++ body' ≠ timestamp ++ "." ++ body ∧
          mac secret (timestamp' ++ "." ++ body') = mac secret (timestamp ++ "." ++ body)) := by
  have hbind : ∀ (t1 t2 b1 b2 : String) (n1 n2 : Int), parseInt64 t1 = some n1 →
      parseInt64 t2 = some n2 → t1 ++ "." ++ b1 = t2 ++ "." ++ b2 → t1 = t2 ∧ b1 = b2 := by
    intro t1 t2 b1 b2 n1 n2 p1 p2 heq
    have hd := congrArg String.data heq
    simp only [String.data_append] at hd
    rw [List.append_assoc, List.append_assoc] at hd
    have := split_at_dot t1.data t2.data b1.data b2.data (parseInt64_no_dot t1 n1 p1)
      (parseInt64_no_dot t2 n2 p2) hd
    exact ⟨String.ext this.1, String.ext this.2⟩
  refine ⟨hbind timestamp timestamp' body body' ts ts' h h', ?_⟩
  intro mac secret path now r' hpath hdiff hnext
  have hmsg : timestamp' ++ "." ++ body' ≠ timestamp ++ "." ++ body := by
    intro heq
    have := hbind timestamp' timestamp body' body ts' ts h' h heq
    rcases hdiff with hd | hd
    · exact hd this.1
    · exact hd this.2
  refine ⟨hmsg, ?_⟩
  have hiff := (next_iff_wrapped mac secret now
    { path := path, xTimestamp := timestamp',
      xSignature := Server.generateHMAC mac secret body timestamp,
      body := some body' }).mp ⟨r', hnext⟩
  rcases hiff with hp | ⟨_, _, t, b, _, _, hb, hsig⟩
  · exact absurd hp hpath
  · simp only [Option.some.injEq] at hb
    subst hb
    simp only [Server.generateHMAC] at hsig
    exact (Subtype.ext (hexEncode_inj _ _ hsig)).symm

/-- C19, an instance: the timestamps "1700000000000" and "170000000000" with
the bodies "a" and "0.a" give different authenticated strings. -/
theorem signature_binds_timestamp_and_payload_witness :
    decide ("1700000000000" ++ "." ++ "a" = "170000000000" ++ "." ++ "0.a") = false :=
  decide_eq_false (fun heq =>
    absurd ((signature_binds_timestamp_and_payload "1700000000000" "170000000000" "a" "0.a"
      1700000000000 170000000000 (by decide) (by decide)).1 heq).1 (by decide))
/-! ## Theorems: confirmation poller -/

/-- The text produced by `fmt.Errorf("transaction not confirmed after %d attempts", 30)`. -/
theorem timed_out_message :
    "transaction not confirmed after " ++ toString 30 ++ " attempts"
      = "transaction not confirmed after 30 attempts" := by
  decide

/-- A status query that succeeds on the primary at once goes through the retry
layer with one call and no sleep. -/
theorem pollOnce_ok {σ : Type} (hasFallback : Bool) (ctx : Context) (query : StatusQuery σ)
    (w : World σ) (v : StatusesResult) (h : (query ctx .primary w.st).1 = .ok v) :
    pollOnce hasFallback ctx query w =
      (none, some v,
        { st := (query ctx .primary w.st).2, log := w.log ++ [Event.call .primary] }) := by
  rcases hq : query ctx .primary w.st with ⟨r, s1⟩
  rw [hq] at h
  simp only at h
  subst h
  simp [pollOnce, callRPCWithRetryIn, retryRounds, tryEndpoints, invoke, statusClosure, hq]

/-- The loop under a query that always succeeds with a pending status: every
attempt is one call and one interval sleep, and the loop ends in the error of
line 164. -/
theorem confirmRounds_pending {σ : Type} (hasFallback : Bool) (ctx : Context)
    (query : StatusQuery σ) (m i : Nat)
    (hq : ∀ ep s, ∃ v, (query ctx ep s).1 = .ok v ∧ isPending v = true) (k : Nat)
    (w : World σ) :
    (confirmRounds hasFallback ctx query m i k w).1
        = some ("transaction not confirmed after " ++ toString m ++ " attempts") ∧
      (confirmRounds hasFallback ctx query m i k w).2.log
        = w.log ++ (List.replicate k [Event.call .primary, Event.sleep i]).flatten := by
  induction k generalizing w with
  | zero => simp [confirmRounds]
  | succ k ih =>
    obtain ⟨v, hv, hp⟩ := hq .primary w.st
    have hpoll := pollOnce_ok hasFallback ctx query w v hv
    have hnext := ih (sleepFor i
      { st := (query ctx .primary w.st).2, log := w.log ++ [Event.call .primary] })
    have hlog : (sleepFor i
        { st := (query ctx .primary w.st).2, log := w.log ++ [Event.call .primary] }).log ++
          (List.replicate k [Event.call .primary, Event.sleep i]).flatten
        = w.log ++ (List.replicate (k + 1) [Event.call .primary, Event.sleep i]).flatten := by
      simp [sleepFor, List.replicate_succ]
    rw [hlog] at hnext
    unfold confirmRounds
    rw [hpoll]
    rcases v with _ | ⟨_ | entry, rest⟩
    · exact hnext
    · exact hnext
    · rcases he : entry.err with _ | e
      · have hfin : ¬ entry.confirmationStatus = some ConfirmationStatus.finalized := by
          intro hf
          simp [isPending, he, hf] at hp
        simp only [he, hfin, if_false]
        exact hnext
      · simp [isPending, he] at hp

/-- C12: with a status query that always succeeds and always reports a
pending status, `ConfirmTransaction` ends with the error "transaction not
confirmed after 30 attempts" after exactly 30 status queries, each followed by
a sleep of 2 seconds, so that consecutive queries are 2 seconds apart. -/
theorem confirm_times_out_when_pending {σ : Type} (hasFallback : Bool) (ctx : Context)
    (query : StatusQuery σ) (s : σ)
    (hq : ∀ ep s, ∃ v, (query ctx ep s).1 = .ok v ∧ isPending v = true) :
    (Client.ConfirmTransaction hasFallback ctx query s).1
        = some "transaction not confirmed after 30 attempts" ∧
      (Client.ConfirmTransaction hasFallback ctx query s).2.2
        = (List.replicate 30 [Event.call .primary, Event.sleep (2 * second)]).flatten ∧
      ((Client.ConfirmTransaction hasFallback ctx query s).2.2.filter Event.isCall).length
        = 30 := by
  have h := confirmRounds_pending hasFallback ctx query 30 (2 * second) hq 30
    { st := s, log := [] }
  have hm := timed_out_message
  rw [hm] at h
  have hlog : (Client.ConfirmTransaction hasFallback ctx query s).2.2
      = (List.replicate 30 [Event.call .primary, Event.sleep (2 * second)]).flatten := by
    simpa [Client.ConfirmTransaction] using h.2
  refine ⟨h.1, hlog, ?_⟩
  rw [hlog]
  decide

/-- C12, an instance: a query that never finds a status. -/
theorem confirm_times_out_when_pending_witness :
    (Client.ConfirmTransaction false { cancelled := false } cancelAwareQuery 0).1
        = some "transaction not confirmed after 30 attempts" ∧
      (Client.ConfirmTransaction false { cancelled := false } cancelAwareQuery 0).2.2
        = (List.replicate 30 [Event.call .primary, Event.sleep (2 * second)]).flatten :=
  ⟨(confirm_times_out_when_pending false { cancelled := false } cancelAwareQuery 0
      (fun _ _ => ⟨[], rfl, rfl⟩)).1,
   (confirm_times_out_when_pending false { cancelled := false } cancelAwareQuery 0
      (fun _ _ => ⟨[], rfl, rfl⟩)).2.1⟩

/-- The retry loop does not depend on the log it starts with: its events are
appended to it. -/
theorem retryRounds_log {σ : Type} (hasFallback : Bool) (fn : Operation σ) (m k b : Nat)
    (s : σ) (l : List Event) :
    retryRounds hasFallback fn m k b { st := s, log := l } =
      ((retryRounds hasFallback fn m k b { st := s, log := [] }).1,
       { st := (retryRounds hasFallback fn m k b { st := s, log := [] }).2.st,
         log := l ++ (retryRounds hasFallback fn m k b { st := s, log := [] }).2.log }) := by
  induction k generalizing b s l with
  | zero => simp [retryRounds]
  | succ k ih =>
    unfold retryRounds
    rw [tryEndpoints_log hasFallback fn s l]
    rcases h : tryEndpoints hasFallback fn { st := s, log := [] } with ⟨_ | e, w1⟩
    · simp [roundEvents, h]
    · obtain ⟨s1, l1⟩ := w1
      have hr : roundEvents hasFallback fn s = l1 := by simp [roundEvents, h]
      simp only [hr]
      split_ifs
      · simp only [sleepFor]
        rw [ih (b * 2) s1 (l ++ l1 ++ [Event.sleep b]), ih (b * 2) s1 (l1 ++ [Event.sleep b])]
        simp [List.append_assoc]
      · rw [ih b s1 (l ++ l1), ih b s1 l1]
        simp [List.append_assoc]

/-- When a round returns `nil`, its last step was a call of the operation that
returned `nil`. -/
theorem tryEndpoints_none {σ : Type} (hasFallback : Bool) (fn : Operation σ) (w : World σ)
    (h : (tryEndpoints hasFallback fn w).1 = none) :
    ∃ ep s, (fn ep s).1 = none ∧ (tryEndpoints hasFallback fn w).2.st = (fn ep s).2 := by
  rcases h1 : fn .primary w.st with ⟨_ | e, s1⟩
  · refine ⟨.primary, w.st, by rw [h1], ?_⟩
    simp [tryEndpoints, invoke, h1]
  · by_cases hc : (isRetryableError e && hasFallback) = true
    · refine ⟨.fallback, s1, ?_, ?_⟩
      · simpa [tryEndpoints, invoke, h1, hc] using h
      · simp [tryEndpoints, invoke, h1, hc]
    · simp [tryEndpoints, invoke, h1, hc] at h

/-- When the retry loop returns `nil`, its last step was a call of the
operation that returned `nil`. -/
theorem retryRounds_none {σ : Type} (hasFallback : Bool) (fn : Operation σ) (m k b : Nat)
    (w : World σ) (h : (retryRounds hasFallback fn m k b w).1 = none) :
    ∃ ep s, (fn ep s).1 = none ∧ (retryRounds hasFallback fn m k b w).2.st = (fn ep s).2 := by
  induction k generalizing b w with
  | zero => simp [retryRounds] at h
  | succ k ih =>
    unfold retryRounds at h ⊢
    have ht := tryEndpoints_none hasFallback fn w
    rcases hr : tryEndpoints hasFallback fn w with ⟨_ | e, w1⟩
    · rw [hr] at ht
      exact ht rfl
    · rw [hr] at h
      simp only at h ⊢
      split_ifs at h ⊢
      · exact ih _ _ h
      · exact ih _ _ h

/-- One attempt does not depend on the log it starts with. -/
theorem pollOnce_log {σ : Type} (hasFallback : Bool) (ctx : Context) (query : StatusQuery σ)
    (s : σ) (l : List Event) :
    pollOnce hasFallback ctx query { st := s, log := l } =
      ((pollOnce hasFallback ctx query { st := s, log := [] }).1,
       (pollOnce hasFallback ctx query { st := s, log := [] }).2.1,
       { st := (pollOnce hasFallback ctx query { st := s, log := [] }).2.2.st,
         log := l ++ (pollOnce hasFallback ctx query { st := s, log := [] }).2.2.log }) := by
  simp only [pollOnce, callRPCWithRetryIn]
  rw [retryRounds_log hasFallback (statusClosure ctx query) 3 3 second (s, none) l]

/-- After a successful query the variable `status` is not `nil`. -/
theorem pollOnce_status {σ : Type} (hasFallback : Bool) (ctx : Context) (query : StatusQuery σ)
    (w : World σ) (h : (pollOnce hasFallback ctx query w).1 = none) :
    ∃ v, (pollOnce hasFallback ctx query w).2.1 = some v := by
  simp only [pollOnce, callRPCWithRetryIn] at h ⊢
  obtain ⟨ep, s, h1, h2⟩ :=
    retryRounds_none hasFallback (statusClosure ctx query) 3 3 second _ h
  rw [h2]
  unfold statusClosure at h1 ⊢
  rcases hq : query ctx ep s.1 with ⟨v | e, s1⟩
  · simp [hq] at h1
  · exact ⟨e, by simp [hq]⟩
/-- The loop returns what the first terminal attempt decides, and the error of
line 164 when none of its attempts is terminal. -/
theorem confirmRounds_spec {σ : Type} (hasFallback : Bool) (ctx : Context)
    (query : StatusQuery σ) (i k : Nat) (w : World σ) :
    (confirmRounds hasFallback ctx query 30 i k w).1 =
      match (attemptOutcomes hasFallback ctx query k w.st).findSome? terminalOf with
      | some r => r.toError
      | none => some "transaction not confirmed after 30 attempts" := by
  induction k generalizing w with
  | zero =>
    simp only [confirmRounds, attemptOutcomes, List.findSome?_nil]
    rw [timed_out_message]
  | succ k ih =>
    obtain ⟨s, l⟩ := w
    have hst := pollOnce_status hasFallback ctx query { st := s, log := [] }
    unfold confirmRounds attemptOutcomes attemptOutcome
    rw [pollOnce_log hasFallback ctx query s l]
    rcases hp : pollOnce hasFallback ctx query { st := s, log := [] } with ⟨err, var, w1⟩
    rw [hp] at hst
    rcases err with _ | e
    · obtain ⟨v, hv⟩ := hst rfl
      simp only at hv
      subst hv
      rcases v with _ | ⟨_ | entry, rest⟩
      · simp only [List.findSome?_cons, terminalOf, List.head?_nil]
        exact ih _
      · simp only [List.findSome?_cons, terminalOf, List.head?_cons]
        exact ih _
      · rcases he : entry.err with _ | reason
        · by_cases hf : entry.confirmationStatus = some ConfirmationStatus.finalized
          · simp [terminalOf, he, hf, ConfirmResult.toError]
          · simp only [List.findSome?_cons, terminalOf, List.head?_cons, he, hf, if_false]
            exact ih _
        · simp [terminalOf, he, ConfirmResult.toError]
    · simp only [List.findSome?_cons, terminalOf]
      exact ih _

/-- The timed-out error is not a Failed error, whatever the chain error. -/
theorem timed_out_ne_failed (reason : String) :
    ConfirmResult.timedOut.toError ≠ (ConfirmResult.failed reason).toError := by
  intro h
  simp only [ConfirmResult.toError, Option.some.injEq] at h
  have hd := congrArg String.data h
  simp only [String.data_append] at hd
  have ht := congrArg (List.take 13) hd
  rw [List.take_append_of_le_length (by decide)] at ht
  revert ht
  decide

/-- C13: the result of `ConfirmTransaction` is the one decided by the first of
its 30 attempts that is terminal, that is, whose query succeeds and returns a
present status carrying a chain error (Failed, an error carrying the chain
error, also when the level is Finalized) or, without error, the level
Finalized (Confirmed, `nil`); attempts whose query errors or whose status is
absent or not final are skipped; with no terminal attempt the result is the
timed-out error, which differs from every Failed error. -/
theorem confirm_result_first_terminal {σ : Type} (hasFallback : Bool) (ctx : Context)
    (query : StatusQuery σ) (s : σ) :
    (Client.ConfirmTransaction hasFallback ctx query s).1
        = (confirmSpec (attemptOutcomes hasFallback ctx query 30 s)).toError ∧
      (∀ reason : String,
        ConfirmResult.timedOut.toError ≠ (ConfirmResult.failed reason).toError) ∧
      (∀ (reason : String) (level : Option ConfirmationStatus) (rest : StatusesResult),
        terminalOf (.ok (some { err := some reason, confirmationStatus := level } :: rest))
          = some (.failed reason)) ∧
      (∀ e : String, terminalOf (.error e) = none) ∧
      (∀ rest : StatusesResult,
        terminalOf (.ok []) = none ∧ terminalOf (.ok (none :: rest)) = none) := by
  refine ⟨?_, timed_out_ne_failed, fun _ _ _ => rfl, fun _ => rfl, fun _ => ⟨rfl, rfl⟩⟩
  have h := confirmRounds_spec hasFallback ctx query (2 * second) 30 { st := s, log := [] }
  simp only [Client.ConfirmTransaction, confirmSpec]
  rw [h]
  rcases List.findSome? terminalOf (attemptOutcomes hasFallback ctx query 30 s) with _ | r
  · rfl
  · rfl

/-- The closure returns the error of a failed query and leaves `status` nil. -/
theorem statusClosure_error {σ : Type} (ctx : Context) (query : StatusQuery σ) (ep : Endpoint)
    (s : σ × Option StatusesResult) (e : String) (h : (query ctx ep s.1).1 = .error e) :
    statusClosure ctx query ep s = (some e, ((query ctx ep s.1).2, none)) := by
  unfold statusClosure
  rcases hq : query ctx ep s.1 with ⟨v | e', s1⟩
  · rw [hq] at h
    simp only at h
    injection h with h
    subst h
    rfl
  · rw [hq] at h
    cases h

/-- One attempt under a query that always fails with a non-retryable error:
three calls on the primary with the backoff sleeps of 1 and 2 seconds, and the
error of the retry layer. -/
theorem pollOnce_failing {σ : Type} (hasFallback : Bool) (ctx : Context)
    (query : StatusQuery σ)
    (hfail : ∀ ep s, ∃ e, (query ctx ep s).1 = .error e ∧ isRetryableError e = false)
    (w : World σ) :
    (pollOnce hasFallback ctx query w).1 = some "RPC call failed after 3 attempts" ∧
      (pollOnce hasFallback ctx query w).2.2.log
        = w.log ++ [Event.call .primary, Event.sleep second, Event.call .primary,
            Event.sleep (2 * second), Event.call .primary] := by
  have hm := exhausted_message
  obtain ⟨e1, h1, r1⟩ := hfail .primary w.st
  have c1 := statusClosure_error ctx query .primary (w.st, none) e1 h1
  obtain ⟨e2, h2, r2⟩ := hfail .primary (query ctx .primary w.st).2
  have c2 := statusClosure_error ctx query .primary ((query ctx .primary w.st).2, none) e2 h2
  obtain ⟨e3, h3, r3⟩ := hfail .primary (query ctx .primary (query ctx .primary w.st).2).2
  have c3 := statusClosure_error ctx query .primary
    ((query ctx .primary (query ctx .primary w.st).2).2, none) e3 h3
  simp only at c1 c2 c3
  simp [pollOnce, callRPCWithRetryIn, retryRounds, tryEndpoints, invoke, sleepFor, c1, c2, c3,
    r1, r2, r3, hm]
  omega

/-- The loop under a query that always fails with a non-retryable error: every
one of the attempts runs. -/
theorem confirmRounds_failing {σ : Type} (hasFallback : Bool) (ctx : Context)
    (query : StatusQuery σ) (m i : Nat)
    (hfail : ∀ ep s, ∃ e, (query ctx ep s).1 = .error e ∧ isRetryableError e = false)
    (k : Nat) (w : World σ) :
    (confirmRounds hasFallback ctx query m i k w).1
        = some ("transaction not confirmed after " ++ toString m ++ " attempts") ∧
      (confirmRounds hasFallback ctx query m i k w).2.log
        = w.log ++ (List.replicate k [Event.call .primary, Event.sleep second,
            Event.call .primary, Event.sleep (2 * second), Event.call .primary,
            Event.sleep i]).flatten := by
  induction k generalizing w with
  | zero => simp [confirmRounds]
  | succ k ih =>
    obtain ⟨h1, h2⟩ := pollOnce_failing hasFallback ctx query hfail w
    unfold confirmRounds
    rcases hp : pollOnce hasFallback ctx query w with ⟨err, var, w1⟩
    rw [hp] at h1 h2
    simp only at h1 h2
    subst h1
    simp only
    have hnext := ih (sleepFor i w1)
    refine ⟨hnext.1, ?_⟩
    rw [hnext.2]
    simp [sleepFor, h2, List.replicate_succ]

/-- The loop depends on the context only through the results of the query. -/
theorem confirmRounds_congr {σ : Type} (hasFallback : Bool) (ctx ctx' : Context)
    (query : StatusQuery σ) (m i : Nat) (hsame : ∀ ep s, query ctx ep s = query ctx' ep s)
    (k : Nat) (w : World σ) :
    confirmRounds hasFallback ctx query m i k w
      = confirmRounds hasFallback ctx' query m i k w := by
  have hc : statusClosure ctx query = statusClosure ctx' query := by
    funext ep s
    simp only [statusClosure, hsame]
  have hp : ∀ w : World σ, pollOnce hasFallback ctx query w
      = pollOnce hasFallback ctx' query w := by
    intro w
    simp only [pollOnce, hc]
  induction k generalizing w with
  | zero => rfl
  | succ k ih =>
    rw [confirmRounds, confirmRounds, hp w]
    simp only [ih]

/-- C14: a run under a context that was cancelled before the call.  Each
status query fails with the error of the context, and `ConfirmTransaction`
still runs all 30 attempts: the query is issued 90 times and the call returns
the timed-out error only after the last attempt. -/
theorem cancelled_context_still_polled :
    (Client.ConfirmTransaction false { cancelled := true } cancelAwareQuery 0).1
        = some "transaction not confirmed after 30 attempts" ∧
      (Client.ConfirmTransaction false { cancelled := true } cancelAwareQuery 0).2.1 = 90 ∧
      ((Client.ConfirmTransaction false { cancelled := true } cancelAwareQuery 0).2.2.filter
        Event.isCall).length = 90 := by
  decide

/-- C14 as amended: `ConfirmTransaction` does not inspect the caller's context,
it only hands it to each status query.  Two contexts under which the queries
behave alike give the same run; and when, the context being cancelled, every
status query fails with a non-retryable error, all 30 attempts still run:
each issues the query three times on the primary with backoff sleeps of 1 and
2 seconds, then sleeps its interval of 2 seconds, and the call returns the
timed-out error after the last attempt. -/
theorem confirm_runs_all_attempts_when_cancelled {σ : Type} (hasFallback : Bool)
    (ctx : Context) (query : StatusQuery σ) (s : σ)
    (hfail : ∀ ep s, ∃ e, (query ctx ep s).1 = .error e ∧ isRetryableError e = false) :
    (Client.ConfirmTransaction hasFallback ctx query s).1
        = some "transaction not confirmed after 30 attempts" ∧
      (Client.ConfirmTransaction hasFallback ctx query s).2.2
        = (List.replicate 30 [Event.call .primary, Event.sleep second, Event.call .primary,
            Event.sleep (2 * second), Event.call .primary,
            Event.sleep (2 * second)]).flatten ∧
      (∀ ctx' : Context, (∀ ep s, query ctx ep s = query ctx' ep s) →
        Client.ConfirmTransaction hasFallback ctx query s
          = Client.ConfirmTransaction hasFallback ctx' query s) := by
  have h := confirmRounds_failing hasFallback ctx query 30 (2 * second) hfail 30
    { st := s, log := [] }
  rw [timed_out_message] at h
  refine ⟨h.1, by simpa [Client.ConfirmTransaction] using h.2, ?_⟩
  intro ctx' hsame
  simp only [Client.ConfirmTransaction,
    confirmRounds_congr hasFallback ctx ctx' query 30 (2 * second) hsame]

/-- C14 as amended, an instance: the context is cancelled and the query
returns its error. -/
theorem confirm_runs_all_attempts_when_cancelled_witness :
    (Client.ConfirmTransaction true { cancelled := true } cancelAwareQuery 0).1
        = some "transaction not confirmed after 30 attempts" ∧
      (Client.ConfirmTransaction true { cancelled := true } cancelAwareQuery 0).2.2
        = (List.replicate 30 [Event.call .primary, Event.sleep second, Event.call .primary,
            Event.sleep (2 * second), Event.call .primary,
            Event.sleep (2 * second)]).flatten :=
  ⟨(confirm_runs_all_attempts_when_cancelled true { cancelled := true } cancelAwareQuery 0
      (fun _ _ => ⟨"context canceled", rfl, by decide⟩)).1,
   (confirm_runs_all_attempts_when_cancelled true { cancelled := true } cancelAwareQuery 0
      (fun _ _ => ⟨"context canceled", rfl, by decide⟩)).2.1⟩

/-- The sleep total of two logs put together is the sum of their totals. -/
theorem sleepTotal_append (a b : List Event) :
    sleepTotal (a ++ b) = sleepTotal a + sleepTotal b := by
  induction a with
  | nil => simp [sleepTotal]
  | cons x xs ih =>
    cases x with
    | call ep =>
      show sleepTotal (xs ++ b) = sleepTotal xs + sleepTotal b
      exact ih
    | sleep d =>
      show d + sleepTotal (xs ++ b) = d + sleepTotal xs + sleepTotal b
      rw [ih]
      omega

/-- A round does not sleep. -/
theorem tryEndpoints_sleep {σ : Type} (hasFallback : Bool) (fn : Operation σ) (w : World σ) :
    sleepTotal (tryEndpoints hasFallback fn w).2.log = sleepTotal w.log := by
  rcases h1 : fn .primary w.st with ⟨_ | e, s1⟩
  · simp [tryEndpoints, invoke, h1, sleepTotal_append, sleepTotal]
  · by_cases hc : (isRetryableError e && hasFallback) = true
    · simp [tryEndpoints, invoke, h1, hc, sleepTotal_append, sleepTotal]
    · simp [tryEndpoints, invoke, h1, hc, sleepTotal_append, sleepTotal]

/-- The last round of the retry loop is not followed by a sleep. -/
theorem retry_sleep_one {σ : Type} (hasFallback : Bool) (fn : Operation σ) (b : Nat)
    (w : World σ) :
    sleepTotal (retryRounds hasFallback fn 3 1 b w).2.log = sleepTotal w.log := by
  have ht := tryEndpoints_sleep hasFallback fn w
  unfold retryRounds
  rcases hr : tryEndpoints hasFallback fn w with ⟨_ | e, w1⟩
  · rw [hr] at ht; exact ht
  · rw [hr] at ht
    simp [retryRounds, ht]

/-- The last two rounds of the retry loop sleep at most once. -/
theorem retry_sleep_two {σ : Type} (hasFallback : Bool) (fn : Operation σ) (b : Nat)
    (w : World σ) :
    sleepTotal (retryRounds hasFallback fn 3 2 b w).2.log ≤ sleepTotal w.log + b := by
  have ht := tryEndpoints_sleep hasFallback fn w
  unfold retryRounds
  rcases hr : tryEndpoints hasFallback fn w with ⟨_ | e, w1⟩
  · rw [hr] at ht; simp only at ht ⊢; omega
  · rw [hr] at ht
    simp only at ht ⊢
    rw [if_pos (by decide), retry_sleep_one]
    simp [sleepFor, sleepTotal_append, sleepTotal, ht]

/-- The retry loop of `CallRPCWithRetry` sleeps for at most 3 seconds. -/
theorem retry_sleep_le {σ : Type} (hasFallback : Bool) (fn : Operation σ) (w : World σ) :
    sleepTotal (callRPCWithRetryIn hasFallback fn w).2.log
      ≤ sleepTotal w.log + 3 * second := by
  have ht := tryEndpoints_sleep hasFallback fn w
  unfold callRPCWithRetryIn retryRounds
  rcases hr : tryEndpoints hasFallback fn w with ⟨_ | e, w1⟩
  · rw [hr] at ht; simp only at ht ⊢; omega
  · rw [hr] at ht
    simp only at ht ⊢
    rw [if_pos (by decide)]
    have h2 := retry_sleep_two hasFallback fn (second * 2) (sleepFor second w1)
    have h3 : sleepTotal (sleepFor second w1).log = sleepTotal w.log + second := by
      simp [sleepFor, sleepTotal_append, sleepTotal, ht]
    omega

/-- One attempt sleeps for at most 3 seconds. -/
theorem pollOnce_sleep_le {σ : Type} (hasFallback : Bool) (ctx : Context)
    (query : StatusQuery σ) (w : World σ) :
    sleepTotal (pollOnce hasFallback ctx query w).2.2.log ≤ sleepTotal w.log + 3 * second := by
  simp only [pollOnce]
  exact retry_sleep_le hasFallback (statusClosure ctx query) { st := (w.st, none), log := w.log }

/-- The loop sleeps for at most 3 seconds of backoff and one interval in each
attempt. -/
theorem confirmRounds_sleep_le {σ : Type} (hasFallback : Bool) (ctx : Context)
    (query : StatusQuery σ) (m i k : Nat) (w : World σ) :
    sleepTotal (confirmRounds hasFallback ctx query m i k w).2.log
      ≤ sleepTotal w.log + k * (3 * second + i) := by
  induction k generalizing w with
  | zero => simp [confirmRounds]
  | succ k ih =>
    have hp := pollOnce_sleep_le hasFallback ctx query w
    unfold confirmRounds
    rcases hpo : pollOnce hasFallback ctx query w with ⟨err, var, w1⟩
    rw [hpo] at hp
    simp only at hp
    have hs : sleepTotal (sleepFor i w1).log = sleepTotal w1.log + i := by
      simp [sleepFor, sleepTotal_append, sleepTotal]
    have hnext := ih (sleepFor i w1)
    have hmul : (k + 1) * (3 * second + i) = k * (3 * second + i) + (3 * second + i) := by
      ring
    rcases err with _ | e
    · rcases var with _ | v
      · simp only; omega
      · rcases v with _ | ⟨_ | entry, rest⟩
        · simp only; omega
        · simp only; omega
        · rcases he : entry.err with _ | reason
          · simp only [he]
            split_ifs
            · simp only; omega
            · omega
          · simp only [he]; omega
    · simp only; omega

/-- The loop under a query that always succeeds at once sleeps only its
intervals. -/
theorem confirmRounds_sleep_first_try {σ : Type} (hasFallback : Bool) (ctx : Context)
    (query : StatusQuery σ) (m i : Nat)
    (hok : ∀ ep s, ∃ v, (query ctx ep s).1 = .ok v) (k : Nat) (w : World σ) :
    sleepTotal (confirmRounds hasFallback ctx query m i k w).2.log
      ≤ sleepTotal w.log + k * i := by
  induction k generalizing w with
  | zero => simp [confirmRounds]
  | succ k ih =>
    obtain ⟨v, hv⟩ := hok .primary w.st
    have hpoll := pollOnce_ok hasFallback ctx query w v hv
    unfold confirmRounds
    rw [hpoll]
    have hnext := ih (sleepFor i
      { st := (query ctx .primary w.st).2, log := w.log ++ [Event.call .primary] })
    have hs : sleepTotal (sleepFor i
        { st := (query ctx .primary w.st).2, log := w.log ++ [Event.call .primary] }).log
        = sleepTotal w.log + i := by
      simp [sleepFor, sleepTotal_append, sleepTotal]
    have h0 : sleepTotal (w.log ++ [Event.call .primary]) = sleepTotal w.log := by
      simp [sleepTotal_append, sleepTotal]
    have hmul : (k + 1) * i = k * i + i := by ring
    rcases v with _ | ⟨_ | entry, rest⟩
    · simp only; omega
    · simp only; omega
    · rcases he : entry.err with _ | reason
      · simp only [he]
        split_ifs
        · simp only; omega
        · omega
      · simp only [he]; omega

/-- C15: a run that sleeps for more than 60 seconds.  With a node that refuses
every connection each of the 30 attempts sleeps 1 and 2 seconds of backoff and
2 seconds of interval, 150 seconds in all. -/
theorem confirm_sleeps_more_than_sixty :
    sleepTotal (Client.ConfirmTransaction false { cancelled := false } refusingQuery 0).2.2
        = 150 * second ∧
      60 * second < 150 * second := by
  decide

/-- C15 as amended: for every behaviour of the status query the sleeps
requested during one call of `ConfirmTransaction`, its own intervals and the
backoff of the nested `CallRPCWithRetry` calls together, add up to at most 150
seconds (3 seconds of backoff and 2 seconds of interval in each of the 30
attempts), and to at most 60 seconds when every status query succeeds on its
first invocation. -/
theorem confirm_sleep_bound {σ : Type} (hasFallback : Bool) (ctx : Context)
    (query : StatusQuery σ) (s : σ) :
    sleepTotal (Client.ConfirmTransaction hasFallback ctx query s).2.2 ≤ 150 * second ∧
      ((∀ ep s, ∃ v, (query ctx ep s).1 = .ok v) →
        sleepTotal (Client.ConfirmTransaction hasFallback ctx query s).2.2 ≤ 60 * second) := by
  constructor
  · have h := confirmRounds_sleep_le hasFallback ctx query 30 (2 * second) 30
      { st := s, log := [] }
    simp only [Client.ConfirmTransaction]
    simp only [sleepTotal] at h
    omega
  · intro hok
    have h := confirmRounds_sleep_first_try hasFallback ctx query 30 (2 * second) hok 30
      { st := s, log := [] }
    simp only [Client.ConfirmTransaction]
    simp only [sleepTotal] at h
    omega

/-- C15 as amended, an instance: a query that always answers at once. -/
theorem confirm_sleep_bound_witness :
    sleepTotal (Client.ConfirmTransaction false { cancelled := false } cancelAwareQuery 0).2.2
      ≤ 60 * second :=
  (confirm_sleep_bound false { cancelled := false } cancelAwareQuery 0).2
    (fun _ _ => ⟨[], rfl⟩)

/-! ## Theorems: webhook payload and settlement pipeline -/

/-- C17: the payload built by `Server.callbackWebhook` has the four keys
contractId, sig, status and meta and no key kind, for every contract,
signature, status and meta; the payload built by `Scheduler.callbackWebhook`
has the five keys, with kind "SETTLE". -/
theorem server_webhook_payload_lacks_kind {μ : Type} (mac : MacFn) (secret : String)
    (marshal : Payload μ → String) (now : Int) (contractID sig status : String) (m : μ) :
    (Server.callbackWebhook mac secret marshal now contractID sig status m).payload.keys
        = ["contractId", "sig", "status", "meta"] ∧
      "kind" ∉
        (Server.callbackWebhook mac secret marshal now contractID sig status m).payload.keys ∧
      (Scheduler.callbackWebhook mac secret marshal now contractID sig status m).payload.keys
        = ["contractId", "sig", "kind", "status", "meta"] ∧
      ("kind", PayloadValue.str "SETTLE") ∈
        (Scheduler.callbackWebhook mac secret marshal now contractID sig status m).payload := by
  refine ⟨rfl, ?_, rfl, ?_⟩
  · simp [Server.callbackWebhook, Server.callbackWebhook.payload, Payload.keys]
  · simp [Scheduler.callbackWebhook, Scheduler.callbackWebhook.payload]

/-- The decode example of the specification, as far as integers go: at
`now = 1700000000` the example snapshot is accepted with exponent -8 and raw
price 4500000000000, the two numbers from which the source computes
`float64(price) * math.Pow10(int(expo))`. -/
theorem decode_example_fields :
    Client.GetPythPrice.decode exampleBuffer 1700000000
      = .ok { expo := -8, price := 4500000000000, conf := 500000, status := 1,
              publishTime := 1700000000 } := by
  decide

/-- Every accepted buffer yields the exponent and the raw price of the layout
table, the two operands of the product the source returns. -/
theorem decode_ok_operands (data : List Byte) (now : Int) (q : PythQuote)
    (h : Client.GetPythPrice.decode data now = .ok q) :
    q.expo = fieldExpo data ∧ q.price = fieldPrice data := by
  have hf := decode_ok_fields data now q h
  exact ⟨hf.2.2.2.2.2.2.2.1, hf.2.2.2.2.2.2.2.2⟩

/-! ## Theorems: the returned price -/

/-- A product with `+Inf` is an infinity or NaN, never a number. -/
theorem mul_posInf_toRat (x : F64) : (x.mul .posInf).toRat = none := by
  cases x with
  | finite m e =>
    simp only [F64.mul]
    split_ifs <;> rfl
  | posInf => rfl
  | negInf => rfl
  | nan => rfl

/-- Above 308 `math.Pow10` is `+Inf`. -/
theorem Pow10_large (n : Int) (h : 308 < n) : Pow10 n = .posInf := by
  unfold Pow10
  rw [if_neg (by omega), if_neg (by omega), if_pos (by omega)]

/-- C18: two accepted buffers whose returned price is not raw price times ten
to the exponent.  With raw price 0 and exponent 309 the power of ten is +Inf
and the returned price is NaN, while the product is 0; with raw price
`-2 ^ 63` and exponent `2 ^ 31 - 1` the returned price is -Inf. -/
theorem price_not_exact_product :
    Client.GetPythPrice.decode zeroPriceBuffer 1700000000
        = .ok { expo := 309, price := 0, conf := 0, status := 1,
                publishTime := 1700000000 } ∧
      Client.GetPythPrice.price zeroPriceBuffer 1700000000 = .ok F64.nan ∧
      F64.nan.toRat ≠ some (((0 : Int) : ℚ) * (10 : ℚ) ^ (309 : Int)) ∧
      Client.GetPythPrice.decode hugeExponentBuffer 1700000000
        = .ok { expo := 2147483647, price := -9223372036854775808, conf := 0, status := 1,
                publishTime := 1700000000 } ∧
      Client.GetPythPrice.price hugeExponentBuffer 1700000000 = .ok F64.negInf ∧
      F64.negInf.toRat
        ≠ some (((-9223372036854775808 : Int) : ℚ) * (10 : ℚ) ^ (2147483647 : Int)) := by
  refine ⟨by decide, by decide, ?_, by decide, by decide, ?_⟩
  · simp [F64.toRat]
  · simp [F64.toRat]

/-- The binary64 model on known values: 0.1, 1e308, the subnormals 1e-320 and
1e-323, the tie `2 ^ 53 + 1`, 1e22 (exact) and 1e23 (rounded), `-2 ^ 63`, and
the products `123456789 * 1e-5` and `3 * 0.1`. -/
theorem binary64_known_values :
    Pow10 (-1) = .finite 7205759403792794 (-56) ∧
      Pow10 308 = .finite 5010420900022432 971 ∧
      Pow10 (-320) = .finite 2024 (-1074) ∧
      Pow10 (-323) = .finite 2 (-1074) ∧
      Pow10 (-324) = .finite 0 0 ∧
      Pow10 309 = .posInf ∧
      F64.ofInt 9007199254740993 = .finite 4503599627370496 1 ∧
      Pow10 22 = .finite 4768371582031250 21 ∧
      Pow10 23 = .finite 5960464477539062 24 ∧
      F64.ofInt (-9223372036854775808) = .finite (-4503599627370496) 11 ∧
      (F64.ofInt 123456789).mul (Pow10 (-5)) = .finite 5429687001335527 (-42) ∧
      (F64.ofInt 3).mul (Pow10 (-1)) = .finite 5404319552844596 (-54) := by
  decide

/-- C18 as amended: the price returned for an accepted buffer is the binary64
product `float64(price) * math.Pow10(int(expo))` of the raw price and the
exponent of the layout: the raw price rounded to binary64, times the power of
ten as `math.Pow10` gives it, rounded again.  When the exponent is above 308
the power of ten is +Inf and the returned price is not a number of any size
(an infinity or NaN); when it is below -323 the power of ten is 0. -/
theorem price_is_float_product (data : List Byte) (now : Int) (p : F64)
    (h : Client.GetPythPrice.price data now = .ok p) :
    p = (F64.ofInt (fieldPrice data)).mul (Pow10 (fieldExpo data)) ∧
      (308 < fieldExpo data → Pow10 (fieldExpo data) = .posInf ∧ p.toRat = none) ∧
      (fieldExpo data < -323 → Pow10 (fieldExpo data) = .finite 0 0) := by
  have hp : p = (F64.ofInt (fieldPrice data)).mul (Pow10 (fieldExpo data)) := by
    unfold Client.GetPythPrice.price at h
    rcases hd : Client.GetPythPrice.decode data now with e | q
    · rw [hd] at h
      cases h
    · rw [hd] at h
      have hf := decode_ok_fields data now q hd
      injection h with h
      rw [← h, priceFloat, hf.2.2.2.2.2.2.2.1, hf.2.2.2.2.2.2.2.2]
  refine ⟨hp, fun hbig => ⟨Pow10_large _ hbig, ?_⟩, fun hsmall => ?_⟩
  · rw [hp, Pow10_large _ hbig]
    exact mul_posInf_toRat _
  · unfold Pow10
    rw [if_neg (by omega), if_neg (by omega), if_neg (by omega)]

/-- C18, the example of the specification: raw price 4500000000000 with
exponent -8 gives the binary64 number `6184752906240000 * 2 ^ (-37)`, which is
45000 exactly. -/
theorem price_is_float_product_witness :
    Client.GetPythPrice.price exampleBuffer 1700000000
        = .ok (F64.finite 6184752906240000 (-37)) ∧
      F64.finite 6184752906240000 (-37)
        = (F64.ofInt (fieldPrice exampleBuffer)).mul (Pow10 (fieldExpo exampleBuffer)) ∧
      fieldPrice exampleBuffer = 4500000000000 ∧
      fieldExpo exampleBuffer = -8 ∧
      (F64.finite 6184752906240000 (-37)).toRat
        = some (((4500000000000 : Int) : ℚ) * (10 : ℚ) ^ (-8 : Int)) :=
  ⟨by decide,
   (price_is_float_product exampleBuffer 1700000000 (F64.finite 6184752906240000 (-37))
      (by decide)).1,
   by decide, by decide,
   by simp only [F64.toRat]; norm_num⟩
/-! ## Theorems: the settlement pipeline of this program -/

end Lyzn
